import Mathlib

/-!
Astumian's stochastic game (astumian_game.c)

A shallow embedding of `main` of `src/astumian_game.c`.

* C `int` variables are `Int`.  The counters `losses`, `wins` and `step` never
  exceed `numsteps`, itself an `int`, so no machine overflow can occur and no
  reduction modulo `2^32` is needed.
* C `double` values are exact rationals (`ℚ`): the matrix entries `4./36.` are
  read as the fractions they denote and `+`, `*`, `<` are exact.
* The generator (`srand48`/`drand48`) is a parameter `rng : Nat → ℚ`:
  `rng k` is the value returned by call number `k` (counted from 0) of
  `get_random_number`.  The variable `drawn` counts the calls made so far.
* Indexing `game_mm` outside its bounds is undefined behaviour in C; the
  embedding stops there with a `fault`.
* `while(1)` has no bound; the embedding runs it on fuel and reports `more`
  when the fuel is used up while the loop is still running.
* `log` is a ghost variable recording, in order, the seeding of the generator,
  every transition of the walk and every switch of the matrix, each with the
  number of the draw it used.
-/

namespace Astumian

/-! ## Constants (lines 39-46) -/

def SEED : Int := 2358

def LOSE_STATE : Int := 0

def WIN_STATE : Int := 4

def INITIAL_STATE : Int := 2

def NUM_GAMES : Nat := 2

def NUM_STATES : Nat := 5

/-! ## The Markov matrices (lines 116-169) -/

/-- The values assigned to `game_mm[game][state][trans]` by lines 117-169, in
the order of the source: the outer list is indexed by `game`, the middle lists
by `state`, the inner lists by `trans`. -/
def game_mm_setup : List (List (List ℚ)) :=
  [ [ [0, 0, 0, 0, 0],
      [4 / 36, 24 / 36, 8 / 36, 0, 0],
      [0, 5 / 36, 29 / 36, 2 / 36, 0],
      [0, 0, 4 / 36, 24 / 36, 8 / 36],
      [0, 0, 0, 0, 0] ],
    [ [0, 0, 0, 0, 0],
      [5 / 36, 29 / 36, 2 / 36, 0, 0],
      [0, 4 / 36, 24 / 36, 8 / 36, 0],
      [0, 0, 5 / 36, 29 / 36, 2 / 36],
      [0, 0, 0, 0, 0] ] ]

/-- The entry `game_mm[game][state][trans]`.  The walk checks the bounds of
`game` and `state` before it reads a row, and the sampling loop keeps `trans`
below `NUM_STATES`, so the default 0 for an index outside the table is never
used by the program. -/
def game_mm (game state trans : Nat) : ℚ :=
  ((game_mm_setup.getD game []).getD state []).getD trans 0

/-- The three reference values printed by line 223. -/
def analytic_game0 : ℚ := 20 / 16

def analytic_game1 : ℚ := 20 / 16

def analytic_uniform : ℚ := 81 / 100

/-! ## Library function -/

/-- The C99 library function `rint` in the default rounding mode: the nearest
integer, a tie going to the even neighbour. -/
def rint (x : ℚ) : Int :=
  if x - ⌊x⌋ < 1 / 2 then ⌊x⌋
  else if 1 / 2 < x - ⌊x⌋ then ⌊x⌋ + 1
  else if ⌊x⌋ % 2 = 0 then ⌊x⌋
  else ⌊x⌋ + 1

/-! ## Program state -/

/-- Entries of the ghost log. -/
inductive Event
  /-- The call `seed_rng(seed)` of line 113. -/
  | seed (seed : Int)
  /-- Lines 182-196: draw number `draw` was taken as `rand_trans`, row
  `game_mm[game][state]` was sampled with it, and the walk moved to
  `nextstate`. -/
  | transition (game state : Int) (draw : Nat) (nextstate : Int)
  /-- Lines 201 and 206: draw number `draw` is taken while the walk is in
  `state`, and `game` is the value assigned to the variable `game`. -/
  | selection (state : Int) (draw : Nat) (game : Int)
  deriving DecidableEq, Repr

/-- The variables of `main` that the main loop reads and writes, with the
number of draws taken so far and the ghost log. -/
structure Vars where
  game : Int
  state : Int
  losses : Int
  wins : Int
  drawn : Nat
  log : List Event
  deriving DecidableEq, Repr

/-- How one pass through the body of `while(1)` ends. -/
inductive Step
  /-- The end of the body was reached: the loop goes round again. -/
  | next (v : Vars)
  /-- One of the two `break`s of lines 212 and 214 was taken. -/
  | brk (v : Vars)
  /-- The matrix `game_mm` was indexed outside its bounds. -/
  | fault (v : Vars)
  deriving DecidableEq, Repr

/-- How a loop run on fuel ends. -/
inductive Res
  /-- The loop was left. -/
  | done (v : Vars)
  /-- The fuel was used up with the loop still running. -/
  | more (v : Vars)
  /-- The matrix `game_mm` was indexed outside its bounds. -/
  | fault (v : Vars)
  deriving DecidableEq, Repr

/-- The variables at the point where the run stopped. -/
def Res.vars : Res → Vars
  | .done v => v
  | .more v => v
  | .fault v => v

/-! ## The sampling loop (lines 183-193) -/

/-- The `for` loop of lines 183-193 over row `row`, with `n` iterations left,
entered with the given values of `trans` (written `tr`), `nextstate` and
`cummulant`; the result is the value of `nextstate` after the loop. -/
def scan (row : Nat → ℚ) (rand_trans : ℚ) : Nat → Nat → Int → ℚ → Int
  | 0, _, nextstate, _ => nextstate
  | n + 1, tr, nextstate, cummulant =>
    if nextstate < 0 then
      if rand_trans < cummulant + row tr then (tr : Int)
      else scan row rand_trans n (tr + 1) nextstate (cummulant + row tr)
    else scan row rand_trans n (tr + 1) nextstate (cummulant + row tr)

/-- Lines 183-193 for in-bounds indices `game` and `state`:
`trans = 0, nextstate = -1, cummulant = 0`, then `NUM_STATES` iterations. -/
def next_state (game state : Nat) (rand_trans : ℚ) : Int :=
  scan (game_mm game state) rand_trans NUM_STATES 0 (-1) 0

/-! ## Switching the matrix (lines 198-208) -/

/-- The order parameter of line 205. -/
def phi (state : Int) : ℚ := (state : ℚ) / ((NUM_STATES - 1 : Nat) : ℚ)

/-- Lines 198-208, "randomly switch MTM": with the flag `uniform` the game
becomes `rint` of a fresh draw, with the flag `correlated` it becomes `rint` of
`phi` times a fresh draw, and with neither flag nothing happens. -/
def switch_mtm (uniform correlated : Bool) (rng : Nat → ℚ) (v : Vars) : Vars :=
  if uniform then
    { v with
      game := rint (rng v.drawn)
      drawn := v.drawn + 1
      log := v.log ++ [Event.selection v.state v.drawn (rint (rng v.drawn))] }
  else if correlated then
    { v with
      game := rint (phi v.state * rng v.drawn)
      drawn := v.drawn + 1
      log := v.log ++ [Event.selection v.state v.drawn (rint (phi v.state * rng v.drawn))] }
  else v

/-! ## The walk (lines 177-217) -/

/-- One pass through the body of `while(1)`, lines 181-215. -/
def body (uniform correlated : Bool) (rng : Nat → ℚ) (v : Vars) : Step :=
  let rand_trans := rng v.drawn
  if 0 ≤ v.game ∧ v.game < NUM_GAMES ∧ 0 ≤ v.state ∧ v.state < NUM_STATES then
    let nextstate := next_state v.game.toNat v.state.toNat rand_trans
    let v1 : Vars :=
      { v with
        state := nextstate
        drawn := v.drawn + 1
        log := v.log ++ [Event.transition v.game v.state v.drawn nextstate] }
    let v2 := switch_mtm uniform correlated rng v1
    if v2.state = LOSE_STATE then Step.brk { v2 with losses := v2.losses + 1 }
    else if v2.state = WIN_STATE then Step.brk { v2 with wins := v2.wins + 1 }
    else Step.next v2
  else Step.fault { v with drawn := v.drawn + 1 }

/-- The loop `while(1)` of lines 179-217, run for at most `fuel` passes. -/
def walk (uniform correlated : Bool) (rng : Nat → ℚ) : Nat → Vars → Res
  | 0, v => Res.more v
  | fuel + 1, v =>
    match body uniform correlated rng v with
    | Step.next v1 => walk uniform correlated rng fuel v1
    | Step.brk v1 => Res.done v1
    | Step.fault v1 => Res.fault v1

/-- One trial, lines 177-217: `state = INITIAL_STATE`, then the walk. -/
def trial (uniform correlated : Bool) (rng : Nat → ℚ) (fuel : Nat) (v : Vars) : Res :=
  walk uniform correlated rng fuel { v with state := INITIAL_STATE }

/-- The main loop of lines 175-219 with `n = numsteps - step` iterations left.
Every trial may use up to `fuel` passes of its `while(1)` loop. -/
def trials (uniform correlated : Bool) (rng : Nat → ℚ) (fuel : Nat) : Nat → Vars → Res
  | 0, v => Res.done v
  | n + 1, v =>
    match trial uniform correlated rng fuel v with
    | Res.done v1 => trials uniform correlated rng fuel n v1
    | Res.more v1 => Res.more v1
    | Res.fault v1 => Res.fault v1

/-! ## `main` (lines 73-228) -/

/-- How the process ends. -/
inductive Outcome
  /-- The function `usage` was called: usage text on stderr, then `exit(1)`.
  The argument is the ghost log at that moment. -/
  | usage (log : List Event)
  /-- The main loop finished and `main` reached `exit(0)`. -/
  | exit0 (v : Vars)
  /-- The fuel was used up inside the main loop. -/
  | running (v : Vars)
  /-- The matrix `game_mm` was indexed outside its bounds. -/
  | fault (v : Vars)
  deriving DecidableEq, Repr

/-- The exit code of the process, when it has exited. -/
def Outcome.exit_code : Outcome → Option Int
  | .usage _ => some 1
  | .exit0 _ => some 0
  | .running _ => none
  | .fault _ => none

/-- The ghost log of the process. -/
def Outcome.log : Outcome → List Event
  | .usage log => log
  | .exit0 v => v.log
  | .running v => v.log
  | .fault v => v.log

/-- The flags set by lines 97-104 from the validated game-type: the values of
`game`, `uniform` and `correlated`. -/
def flags (game : Int) : Int × Bool × Bool :=
  if game = 2 then (0, true, false)
  else if game = 3 then (0, false, true)
  else (game, false, false)

/-- The function `main` on `argc` and the two integers that `atoi` reads from
`argv[1]` and `argv[2]`.  The variable `state` is not initialised before the
main loop; the embedding starts it at 0, and every trial overwrites it before
reading it. -/
def main (rng : Nat → ℚ) (fuel : Nat) (argc game numsteps : Int) : Outcome :=
  let log : List Event := []
  if argc ≠ 3 then Outcome.usage log
  else if game < 0 ∨ game > 3 then Outcome.usage log
  else if numsteps < 0 then Outcome.usage log
  else
    let log := log ++ [Event.seed SEED]
    let v : Vars :=
      { game := (flags game).1, state := 0, losses := 0, wins := 0, drawn := 0, log := log }
    match trials (flags game).2.1 (flags game).2.2 rng fuel numsteps.toNat v with
    | Res.done v1 => Outcome.exit0 v1
    | Res.more v1 => Outcome.running v1
    | Res.fault v1 => Outcome.fault v1

/-! ## Notions used to state the properties -/

/-- The variables at the end of a pass. -/
def Step.vars : Step → Vars
  | .next v => v
  | .brk v => v
  | .fault v => v

/-- Whether an entry of the log is a transition into `target`. -/
def Event.arrives (target : Int) : Event → Bool
  | .transition _ _ _ nextstate => decide (nextstate = target)
  | _ => false

/-- The number of transitions into `target` recorded in a log. -/
def arrivals (target : Int) (log : List Event) : Nat :=
  log.countP (Event.arrives target)

/-- The transition kernel of uniform switching: each of the two matrices is
used with probability 1/2. -/
def uniform_kernel (state tr : Nat) : ℚ :=
  (game_mm 0 state tr + game_mm 1 state tr) / 2

/-- The equations that make `h s` the probability that the chain with kernel
`M`, started at state `s`, is absorbed at state 4: `h 0 = 0`, `h 4 = 1` and
`h s = M s 0 * h 0 + ... + M s 4 * h 4` at the transient states. -/
def absorption (M : Nat → Nat → ℚ) (h : Fin 5 → ℚ) : Prop :=
  h 0 = 0 ∧ h 4 = 1 ∧ ∀ s : Fin 5, s ≠ 0 → s ≠ 4 → h s = ∑ j : Fin 5, M s j * h j

/-- The value that the switch assigns to `game` in a switching mode, from the
state `state` and the draw `x`: line 201 with the flag `uniform`, line 206
otherwise. -/
def switched (uniform : Bool) (state : Int) (x : ℚ) : Int :=
  if uniform then rint x else rint (phi state * x)

/-- The state from which the walk goes on after reaching `state`: the initial
state of the next trial after an absorbing state, `state` itself otherwise. -/
def resumed (state : Int) : Int :=
  if state = LOSE_STATE ∨ state = WIN_STATE then INITIAL_STATE else state

/-- What stands next to what in the log of a run in a switching mode: the
seeding is followed by a transition of game 0 from the initial state with draw
0; a transition is followed by the switch made from the state it reached, with
the next draw; a switch is followed by a transition of the game it assigned,
from the state `resumed`, inside the bounds of the table, with the next
draw. -/
def follows (uniform : Bool) (rng : Nat → ℚ) : Event → Event → Prop
  | .seed _, .transition g s k n =>
    g = 0 ∧ s = INITIAL_STATE ∧ k = 0 ∧ n = next_state g.toNat s.toNat (rng k)
  | .transition _ _ k n, .selection s1 k1 g1 =>
    s1 = n ∧ k1 = k + 1 ∧ g1 = switched uniform s1 (rng k1)
  | .selection s1 k1 g1, .transition g s k n =>
    g = g1 ∧ g1 = switched uniform s1 (rng k1) ∧ s = resumed s1 ∧
      (0 ≤ g ∧ g < NUM_GAMES ∧ 0 ≤ s ∧ s < NUM_STATES) ∧
      k = k1 + 1 ∧ n = next_state g.toNat s.toNat (rng k)
  | _, _ => False

/-- The part of `follows` that concerns the order of the draws and the
transitions inside a trial: after a switch made from a transient state the
next transition samples the game assigned by that switch, from that state. -/
def switch_order (uniform : Bool) (rng : Nat → ℚ) : Event → Event → Prop
  | .seed _, .transition g s k n =>
    g = 0 ∧ s = INITIAL_STATE ∧ k = 0 ∧ n = next_state g.toNat s.toNat (rng k)
  | .transition _ _ k n, .selection s1 k1 g1 =>
    s1 = n ∧ k1 = k + 1 ∧ g1 = switched uniform s1 (rng k1)
  | .selection s1 k1 g1, .transition g s k n =>
    k = k1 + 1 ∧ n = next_state g.toNat s.toNat (rng k) ∧
      (s1 ≠ LOSE_STATE → s1 ≠ WIN_STATE → g = g1 ∧ s = s1)
  | _, _ => False

/-- Two executions, one started from `v` and one from `w`, have made the same
progress when they stand at `a` and `b`: same game, same state, and as many
draws, losses and wins added to those of `v` as to those of `w`. -/
def same_progress (v w a b : Vars) : Prop :=
  a.game = b.game ∧ a.state = b.state ∧
    (v.drawn ≤ a.drawn ∧ a.drawn + w.drawn = b.drawn + v.drawn) ∧
    a.losses + w.losses = b.losses + v.losses ∧ a.wins + w.wins = b.wins + v.wins

/-- Whether an entry of the log is a transition. -/
def Event.is_transition : Event → Bool
  | .transition _ _ _ _ => true
  | _ => false

/-- Whether an entry of the log is a switch of the matrix. -/
def Event.is_selection : Event → Bool
  | .selection _ _ _ => true
  | _ => false

/-- The number of transitions recorded in a log. -/
def transitions (log : List Event) : Nat := log.countP Event.is_transition

/-- The number of switches recorded in a log. -/
def selections (log : List Event) : Nat := log.countP Event.is_selection

/-- Which game a transition of game-type 3 may sample, given the entry of the
log before it: game 0 right after the seeding; game 1 only after a switch made
at state 3, for a transition from state 3, or after a switch made at state 4,
for the first transition, from state 2, of the next trial. -/
def governs : Event → Event → Prop
  | .seed _, .transition g _ _ _ => g = 0
  | .selection s1 _ _, .transition g s _ _ => g = 1 → (s1 = 3 ∧ s = 3) ∨ (s1 = 4 ∧ s = 2)
  | _, _ => True

end Astumian

namespace Astumian

/-! ## The matrices -/

/-- C3: in both matrices every entry is non-negative, each row of a transient
state 1, 2, 3 sums to exactly 1, and the rows of the absorbing states 0 and 4
are zero throughout. -/
theorem game_mm_rows :
    (∀ g s t : Nat, 0 ≤ game_mm g s t) ∧
    (∀ g : Fin NUM_GAMES,
      (∑ t in Finset.range NUM_STATES, game_mm g 1 t = 1) ∧
      (∑ t in Finset.range NUM_STATES, game_mm g 2 t = 1) ∧
      (∑ t in Finset.range NUM_STATES, game_mm g 3 t = 1)) ∧
    (∀ g : Fin NUM_GAMES, ∀ t : Fin NUM_STATES,
      game_mm g LOSE_STATE.toNat t = 0 ∧ game_mm g WIN_STATE.toNat t = 0) := by
  refine ⟨?_, ?_, ?_⟩
  · intro g s t
    rcases g with _ | _ | g <;> rcases s with _ | _ | _ | _ | _ | s <;>
      rcases t with _ | _ | _ | _ | _ | t <;> simp [game_mm, game_mm_setup] <;> norm_num
  · intro g
    fin_cases g <;> simp [NUM_STATES, Finset.sum_range_succ, game_mm, game_mm_setup] <;> norm_num
  · intro g t
    fin_cases g <;> fin_cases t <;> simp [game_mm, game_mm_setup, LOSE_STATE, WIN_STATE]

/-! ## The sampling loop -/

/-- The five passes of the sampling loop written out. -/
theorem next_state_unfold (g s : Nat) (r : ℚ) :
    next_state g s r =
      if r < game_mm g s 0 then 0
      else if r < game_mm g s 0 + game_mm g s 1 then 1
      else if r < game_mm g s 0 + game_mm g s 1 + game_mm g s 2 then 2
      else if r < game_mm g s 0 + game_mm g s 1 + game_mm g s 2 + game_mm g s 3 then 3
      else if r < game_mm g s 0 + game_mm g s 1 + game_mm g s 2 + game_mm g s 3
          + game_mm g s 4 then 4
      else -1 := by
  simp [next_state, scan, NUM_STATES]

/-- The entries of the six rows of the transient states. -/
theorem game_mm_values :
    (game_mm 0 1 0 = 4 / 36 ∧ game_mm 0 1 1 = 24 / 36 ∧ game_mm 0 1 2 = 8 / 36 ∧
      game_mm 0 1 3 = 0 ∧ game_mm 0 1 4 = 0) ∧
    (game_mm 0 2 0 = 0 ∧ game_mm 0 2 1 = 5 / 36 ∧ game_mm 0 2 2 = 29 / 36 ∧
      game_mm 0 2 3 = 2 / 36 ∧ game_mm 0 2 4 = 0) ∧
    (game_mm 0 3 0 = 0 ∧ game_mm 0 3 1 = 0 ∧ game_mm 0 3 2 = 4 / 36 ∧
      game_mm 0 3 3 = 24 / 36 ∧ game_mm 0 3 4 = 8 / 36) ∧
    (game_mm 1 1 0 = 5 / 36 ∧ game_mm 1 1 1 = 29 / 36 ∧ game_mm 1 1 2 = 2 / 36 ∧
      game_mm 1 1 3 = 0 ∧ game_mm 1 1 4 = 0) ∧
    (game_mm 1 2 0 = 0 ∧ game_mm 1 2 1 = 4 / 36 ∧ game_mm 1 2 2 = 24 / 36 ∧
      game_mm 1 2 3 = 8 / 36 ∧ game_mm 1 2 4 = 0) ∧
    (game_mm 1 3 0 = 0 ∧ game_mm 1 3 1 = 0 ∧ game_mm 1 3 2 = 5 / 36 ∧
      game_mm 1 3 3 = 29 / 36 ∧ game_mm 1 3 4 = 2 / 36) := by
  simp [game_mm, game_mm_setup]

/-- The least-index property of the written-out sampling loop, for any row whose
entries sum to more than the draw. -/
theorem next_state_least (g s : Nat) (r : ℚ)
    (hsum : r < game_mm g s 0 + game_mm g s 1 + game_mm g s 2 + game_mm g s 3
      + game_mm g s 4) :
    ∃ j : Nat, j < NUM_STATES ∧ next_state g s r = j ∧
      r < ∑ t in Finset.range (j + 1), game_mm g s t ∧
      ∀ i : Nat, i < j → ¬ r < ∑ t in Finset.range (i + 1), game_mm g s t := by
  rw [next_state_unfold]
  by_cases h0 : r < game_mm g s 0
  · refine ⟨0, by decide, by simp [h0], by simpa using h0, ?_⟩
    intro i hi
    omega
  by_cases h1 : r < game_mm g s 0 + game_mm g s 1
  · refine ⟨1, by decide, by simp [h0, h1], by simpa [Finset.sum_range_succ] using h1, ?_⟩
    intro i hi
    interval_cases i
    simpa using h0
  by_cases h2 : r < game_mm g s 0 + game_mm g s 1 + game_mm g s 2
  · refine ⟨2, by decide, by simp [h0, h1, h2], by simpa [Finset.sum_range_succ] using h2, ?_⟩
    intro i hi
    interval_cases i
    · simpa using h0
    · simpa [Finset.sum_range_succ] using h1
  by_cases h3 : r < game_mm g s 0 + game_mm g s 1 + game_mm g s 2 + game_mm g s 3
  · refine ⟨3, by decide, by simp [h0, h1, h2, h3],
      by simpa [Finset.sum_range_succ] using h3, ?_⟩
    intro i hi
    interval_cases i
    · simpa using h0
    · simpa [Finset.sum_range_succ] using h1
    · simpa [Finset.sum_range_succ] using h2
  · refine ⟨4, by decide, by simp [h0, h1, h2, h3, hsum],
      by simpa [Finset.sum_range_succ] using hsum, ?_⟩
    intro i hi
    interval_cases i
    · simpa using h0
    · simpa [Finset.sum_range_succ] using h1
    · simpa [Finset.sum_range_succ] using h2
    · simpa [Finset.sum_range_succ] using h3

/-- The three intervals of draws for game 0 at state 2. -/
theorem next_state_game0_mid (r : ℚ) (hr0 : 0 ≤ r) (hr1 : r < 1) :
    (r < 5 / 36 → next_state 0 2 r = 1) ∧
    (5 / 36 ≤ r → r < 34 / 36 → next_state 0 2 r = 2) ∧
    (34 / 36 ≤ r → next_state 0 2 r = 3) := by
  obtain ⟨-, ⟨b0, b1, b2, b3, b4⟩, -, -, -, -⟩ := game_mm_values
  rw [next_state_unfold]
  simp only [b0, b1, b2, b3, b4]
  refine ⟨?_, ?_, ?_⟩
  · intro h
    rw [if_neg (by linarith), if_pos (by linarith)]
  · intro h h2
    rw [if_neg (by linarith), if_neg (by linarith), if_pos (by linarith)]
  · intro h
    rw [if_neg (by linarith), if_neg (by linarith), if_neg (by linarith),
      if_pos (by linarith)]

/-- C2: for a game `g` in 0..1, a transient state `s` in 1..3 and a draw `r`
in [0,1), the sampling loop returns the least column `j` in 0..4 with
`r < game_mm g s 0 + ... + game_mm g s j`; for game 0 at state 2 this is 1 when
`r < 5/36`, 2 when `5/36 ≤ r < 34/36` and 3 when `34/36 ≤ r < 1`. -/
theorem next_state_inverse_cdf (g s : Nat) (r : ℚ) (hg : g < NUM_GAMES)
    (hs1 : 1 ≤ s) (hs3 : s ≤ 3) (hr0 : 0 ≤ r) (hr1 : r < 1) :
    (∃ j : Nat, j < NUM_STATES ∧ next_state g s r = j ∧
      r < ∑ t in Finset.range (j + 1), game_mm g s t ∧
      ∀ i : Nat, i < j → ¬ r < ∑ t in Finset.range (i + 1), game_mm g s t) ∧
    (g = 0 → s = 2 →
      (r < 5 / 36 → next_state g s r = 1) ∧
      (5 / 36 ≤ r → r < 34 / 36 → next_state g s r = 2) ∧
      (34 / 36 ≤ r → next_state g s r = 3)) := by
  obtain ⟨⟨a0, a1, a2, a3, a4⟩, ⟨b0, b1, b2, b3, b4⟩, ⟨c0, c1, c2, c3, c4⟩,
    ⟨d0, d1, d2, d3, d4⟩, ⟨e0, e1, e2, e3, e4⟩, ⟨f0, f1, f2, f3, f4⟩⟩ := game_mm_values
  refine ⟨?_, ?_⟩
  · apply next_state_least
    have hg2 : g = 0 ∨ g = 1 := by simp only [NUM_GAMES] at hg; omega
    have hs2 : s = 1 ∨ s = 2 ∨ s = 3 := by omega
    rcases hg2 with rfl | rfl <;> rcases hs2 with rfl | rfl | rfl <;>
      simp only [a0, a1, a2, a3, a4, b0, b1, b2, b3, b4, c0, c1, c2, c3, c4,
        d0, d1, d2, d3, d4, e0, e1, e2, e3, e4, f0, f1, f2, f3, f4] <;> linarith
  · rintro rfl rfl
    exact next_state_game0_mid r hr0 hr1

/-- C2 at game 0, state 2 and the draw 1/2: the next state is 2. -/
theorem next_state_inverse_cdf_witness : next_state 0 2 (1 / 2) = 2 :=
  ((next_state_inverse_cdf 0 2 (1 / 2) (by decide) (by decide) (by decide)
    (by norm_num) (by norm_num)).2 rfl rfl).2.1 (by norm_num) (by norm_num)

/-! ## Rounding and switching -/

/-- On [0, 1/2] the function `rint` is 0. -/
theorem rint_of_le_half (x : ℚ) (h0 : 0 ≤ x) (h1 : x ≤ 1 / 2) : rint x = 0 := by
  have hf : ⌊x⌋ = 0 := Int.floor_eq_zero_iff.mpr ⟨h0, by linarith⟩
  unfold rint
  rw [hf]
  simp only [Int.cast_zero, sub_zero]
  split_ifs <;> first | rfl | (exfalso; linarith) | omega

/-- On (1/2, 1) the function `rint` is 1. -/
theorem rint_of_gt_half (x : ℚ) (h0 : 1 / 2 < x) (h1 : x < 1) : rint x = 1 := by
  have hf : ⌊x⌋ = 0 := Int.floor_eq_zero_iff.mpr ⟨by linarith, h1⟩
  unfold rint
  rw [hf]
  simp only [Int.cast_zero, sub_zero]
  split_ifs <;> first | rfl | (exfalso; linarith)

/-- The switch leaves `state`, `losses` and `wins` alone. -/
theorem switch_mtm_frame (u c : Bool) (rng : Nat → ℚ) (v : Vars) :
    (switch_mtm u c rng v).state = v.state ∧ (switch_mtm u c rng v).losses = v.losses ∧
      (switch_mtm u c rng v).wins = v.wins := by
  unfold switch_mtm
  split_ifs <;> simp

/-- C7: game-type 2 sets the flag `uniform`, and with that flag the switch
assigns to `game` the draw rounded to the nearest integer: for a draw `u` in
[0,1) the game becomes 1 exactly when `rint u = 1`, and 0 otherwise; every
`u < 1/2` gives game 0, every `u > 1/2` gives game 1 and the tie `u = 1/2`
gives game 0. -/
theorem uniform_switch (correlated : Bool) (rng : Nat → ℚ) (v : Vars)
    (h0 : 0 ≤ rng v.drawn) (h1 : rng v.drawn < 1) :
    (flags 2).2.1 = true ∧
    ((switch_mtm true correlated rng v).game = 1 ↔ rint (rng v.drawn) = 1) ∧
    ((switch_mtm true correlated rng v).game = 0 ↔ ¬ rint (rng v.drawn) = 1) ∧
    (rng v.drawn < 1 / 2 → (switch_mtm true correlated rng v).game = 0) ∧
    (1 / 2 < rng v.drawn → (switch_mtm true correlated rng v).game = 1) ∧
    (rng v.drawn = 1 / 2 → (switch_mtm true correlated rng v).game = 0) := by
  have hg : (switch_mtm true correlated rng v).game = rint (rng v.drawn) := by
    simp [switch_mtm]
  rw [hg]
  refine ⟨by simp [flags], Iff.rfl, ?_, ?_, ?_, ?_⟩
  · rcases le_or_lt (rng v.drawn) (1 / 2) with h | h
    · simp [rint_of_le_half _ h0 h]
    · simp [rint_of_gt_half _ h h1]
  · intro h
    exact rint_of_le_half _ h0 h.le
  · intro h
    exact rint_of_gt_half _ h h1
  · intro h
    exact rint_of_le_half _ h0 h.le

/-- C7 at the draws 1/4 and 3/4: the first keeps game 0, the second gives
game 1. -/
theorem uniform_switch_witness :
    (switch_mtm true false (fun _ => 1 / 4) ⟨0, 2, 0, 0, 1, []⟩).game = 0 ∧
    (switch_mtm true false (fun _ => 3 / 4) ⟨0, 2, 0, 0, 1, []⟩).game = 1 :=
  ⟨(uniform_switch false (fun _ => 1 / 4) ⟨0, 2, 0, 0, 1, []⟩ (by norm_num)
      (by norm_num)).2.2.2.1 (by norm_num),
    (uniform_switch false (fun _ => 3 / 4) ⟨0, 2, 0, 0, 1, []⟩ (by norm_num)
      (by norm_num)).2.2.2.2.1 (by norm_num)⟩

/-- C8: game-type 3 sets the flag `correlated`, and with that flag the switch
made at state 0 assigns game 0 whatever the draw is: no draw selects game 1
there. -/
theorem correlated_switch_at_lose (rng : Nat → ℚ) (v : Vars) (hs : v.state = LOSE_STATE) :
    (flags 3).2 = (false, true) ∧ phi v.state = 0 ∧
    (switch_mtm false true rng v).game = 0 ∧
    ¬ ∃ u : ℚ, 0 ≤ u ∧ u < 1 ∧ (switch_mtm false true (fun _ => u) v).game = 1 := by
  have hphi : phi v.state = 0 := by simp [phi, hs, LOSE_STATE]
  have hr : rint 0 = 0 := rint_of_le_half 0 le_rfl (by norm_num)
  have hg : ∀ f : Nat → ℚ, (switch_mtm false true f v).game = 0 := by
    intro f
    simp [switch_mtm, hphi, hr]
  refine ⟨by simp [flags], hphi, hg rng, ?_⟩
  rintro ⟨u, -, -, hu⟩
  rw [hg] at hu
  exact absurd hu (by decide)

/-- C8 at the draw 99/100 in state 0: the game stays 0. -/
theorem correlated_switch_at_lose_witness :
    (switch_mtm false true (fun _ => 99 / 100) ⟨1, 0, 0, 0, 3, []⟩).game = 0 :=
  (correlated_switch_at_lose (fun _ => 99 / 100) ⟨1, 0, 0, 0, 3, []⟩ rfl).2.2.1

/-! ## One pass of the walk -/

/-- A pass with in-bounds indices, in terms of the sampled next state. -/
theorem body_eq (u c : Bool) (rng : Nat → ℚ) (v : Vars)
    (hb : 0 ≤ v.game ∧ v.game < NUM_GAMES ∧ 0 ≤ v.state ∧ v.state < NUM_STATES) :
    body u c rng v =
      if next_state v.game.toNat v.state.toNat (rng v.drawn) = LOSE_STATE then
        Step.brk { switch_mtm u c rng
          { v with
            state := next_state v.game.toNat v.state.toNat (rng v.drawn)
            drawn := v.drawn + 1
            log := v.log ++ [Event.transition v.game v.state v.drawn
              (next_state v.game.toNat v.state.toNat (rng v.drawn))] } with
          losses := v.losses + 1 }
      else if next_state v.game.toNat v.state.toNat (rng v.drawn) = WIN_STATE then
        Step.brk { switch_mtm u c rng
          { v with
            state := next_state v.game.toNat v.state.toNat (rng v.drawn)
            drawn := v.drawn + 1
            log := v.log ++ [Event.transition v.game v.state v.drawn
              (next_state v.game.toNat v.state.toNat (rng v.drawn))] } with
          wins := v.wins + 1 }
      else
        Step.next (switch_mtm u c rng
          { v with
            state := next_state v.game.toNat v.state.toNat (rng v.drawn)
            drawn := v.drawn + 1
            log := v.log ++ [Event.transition v.game v.state v.drawn
              (next_state v.game.toNat v.state.toNat (rng v.drawn))] }) := by
  unfold body
  simp only [hb, and_self, if_true, (switch_mtm_frame u c rng _).1,
    (switch_mtm_frame u c rng _).2.1, (switch_mtm_frame u c rng _).2.2]

/-- A pass with an index out of bounds faults. -/
theorem body_fault (u c : Bool) (rng : Nat → ℚ) (v : Vars)
    (hb : ¬ (0 ≤ v.game ∧ v.game < NUM_GAMES ∧ 0 ≤ v.state ∧ v.state < NUM_STATES)) :
    body u c rng v = Step.fault { v with drawn := v.drawn + 1 } := by
  unfold body
  simp only [hb, if_false]

/-- A pass that ends in `break` has reached state 0 and counted a loss, or
reached state 4 and counted a win. -/
theorem body_brk (u c : Bool) (rng : Nat → ℚ) (v v1 : Vars)
    (h : body u c rng v = Step.brk v1) :
    (v1.state = LOSE_STATE ∧ v1.losses = v.losses + 1 ∧ v1.wins = v.wins) ∨
    (v1.state = WIN_STATE ∧ v1.wins = v.wins + 1 ∧ v1.losses = v.losses) := by
  by_cases hb : 0 ≤ v.game ∧ v.game < NUM_GAMES ∧ 0 ≤ v.state ∧ v.state < NUM_STATES
  · rw [body_eq u c rng v hb] at h
    split_ifs at h with h0 h4
    · left
      cases h
      simp [(switch_mtm_frame u c rng _).1, (switch_mtm_frame u c rng _).2.2, h0]
    · right
      cases h
      simp [(switch_mtm_frame u c rng _).1, (switch_mtm_frame u c rng _).2.1, h4]
  · rw [body_fault u c rng v hb] at h
    cases h

/-- A pass that does not end in `break` leaves the counters alone. -/
theorem body_next (u c : Bool) (rng : Nat → ℚ) (v v1 : Vars)
    (h : body u c rng v = Step.next v1) :
    v1.losses = v.losses ∧ v1.wins = v.wins ∧ v1.state ≠ LOSE_STATE ∧
      v1.state ≠ WIN_STATE := by
  by_cases hb : 0 ≤ v.game ∧ v.game < NUM_GAMES ∧ 0 ≤ v.state ∧ v.state < NUM_STATES
  · rw [body_eq u c rng v hb] at h
    split_ifs at h with h0 h4
    cases h
    simp [(switch_mtm_frame u c rng _).1, (switch_mtm_frame u c rng _).2.1,
      (switch_mtm_frame u c rng _).2.2, h0, h4]
  · rw [body_fault u c rng v hb] at h
    cases h

/-! ## Loops -/

/-- A property kept by every pass is kept by the walk. -/
theorem walk_invariant (P : Vars → Prop) (u c : Bool) (rng : Nat → ℚ)
    (hstep : ∀ v, P v → P (body u c rng v).vars) (fuel : Nat) (v : Vars) (hv : P v) :
    P (walk u c rng fuel v).vars := by
  induction fuel generalizing v with
  | zero => simpa [walk, Res.vars] using hv
  | succ n ih =>
    have h := hstep v hv
    rw [walk]
    cases hb : body u c rng v with
    | next v1 =>
      rw [hb] at h
      exact ih v1 h
    | brk v1 =>
      rw [hb] at h
      exact h
    | fault v1 =>
      rw [hb] at h
      exact h

/-- A property kept by every pass and by the reset of `state` is kept by the
main loop. -/
theorem trials_invariant (P : Vars → Prop) (u c : Bool) (rng : Nat → ℚ)
    (hstep : ∀ v, P v → P (body u c rng v).vars)
    (hreset : ∀ v, P v → P { v with state := INITIAL_STATE })
    (fuel n : Nat) (v : Vars) (hv : P v) :
    P (trials u c rng fuel n v).vars := by
  induction n generalizing v with
  | zero => simpa [trials, Res.vars] using hv
  | succ n ih =>
    have h := walk_invariant P u c rng hstep fuel _ (hreset v hv)
    rw [trials, trial]
    cases hw : walk u c rng fuel { v with state := INITIAL_STATE } with
    | done v1 =>
      rw [hw] at h
      exact ih v1 h
    | more v1 =>
      rw [hw] at h
      exact h
    | fault v1 =>
      rw [hw] at h
      exact h

/-- A finished walk has counted exactly one loss, at state 0, or exactly one
win, at state 4. -/
theorem walk_done (u c : Bool) (rng : Nat → ℚ) (fuel : Nat) (v v1 : Vars)
    (h : walk u c rng fuel v = Res.done v1) :
    (v1.state = LOSE_STATE ∧ v1.losses = v.losses + 1 ∧ v1.wins = v.wins) ∨
    (v1.state = WIN_STATE ∧ v1.wins = v.wins + 1 ∧ v1.losses = v.losses) := by
  induction fuel generalizing v with
  | zero => simp [walk] at h
  | succ n ih =>
    rw [walk] at h
    cases hb : body u c rng v with
    | next v2 =>
      rw [hb] at h
      obtain ⟨hl, hw, -, -⟩ := body_next u c rng v v2 hb
      have := ih v2 h
      rw [hl, hw] at this
      exact this
    | brk v2 =>
      rw [hb] at h
      cases h
      exact body_brk u c rng v v1 hb
    | fault v2 =>
      rw [hb] at h
      cases h

/-- A finished main loop of `n` trials has added `n` to `wins + losses`. -/
theorem trials_done (u c : Bool) (rng : Nat → ℚ) (fuel n : Nat) (v v1 : Vars)
    (h : trials u c rng fuel n v = Res.done v1) :
    v1.wins + v1.losses = v.wins + v.losses + n := by
  induction n generalizing v with
  | zero =>
    simp only [trials, Res.done.injEq] at h
    subst h
    simp
  | succ n ih =>
    rw [trials, trial] at h
    cases hw : walk u c rng fuel { v with state := INITIAL_STATE } with
    | done v2 =>
      rw [hw] at h
      have h1 := ih v2 h
      have h2 := walk_done u c rng fuel _ v2 hw
      simp only at h2
      push_cast
      rcases h2 with ⟨-, hl, hw2⟩ | ⟨-, hw2, hl⟩ <;> rw [h1, hl, hw2] <;> ring
    | more v2 =>
      rw [hw] at h
      cases h
    | fault v2 =>
      rw [hw] at h
      cases h

/-! ## Counting -/

/-- A transition into `n` adds one arrival at `n` and none elsewhere. -/
theorem arrivals_transition (t : Int) (log : List Event) (g s : Int) (k : Nat) (n : Int) :
    arrivals t (log ++ [Event.transition g s k n]) =
      arrivals t log + if n = t then 1 else 0 := by
  simp only [arrivals, List.countP_append, List.countP_cons, List.countP_nil, Event.arrives]
  by_cases h : n = t <;> simp [h]

/-- The switch adds no arrival. -/
theorem arrivals_switch (t : Int) (u c : Bool) (rng : Nat → ℚ) (v : Vars) :
    arrivals t (switch_mtm u c rng v).log = arrivals t v.log := by
  unfold switch_mtm
  split_ifs <;>
    simp [arrivals, List.countP_append, List.countP_cons, List.countP_nil, Event.arrives]

/-- Every pass keeps `losses` and `wins` equal to the numbers of recorded
transitions into states 0 and 4. -/
theorem body_counts (u c : Bool) (rng : Nat → ℚ) (v : Vars)
    (hv : v.losses = arrivals LOSE_STATE v.log ∧ v.wins = arrivals WIN_STATE v.log) :
    (body u c rng v).vars.losses = arrivals LOSE_STATE (body u c rng v).vars.log ∧
      (body u c rng v).vars.wins = arrivals WIN_STATE (body u c rng v).vars.log := by
  by_cases hb : 0 ≤ v.game ∧ v.game < NUM_GAMES ∧ 0 ≤ v.state ∧ v.state < NUM_STATES
  · rw [body_eq u c rng v hb]
    have h04 : LOSE_STATE ≠ WIN_STATE := by decide
    split_ifs with h0 h4
    · have h4 : ¬ next_state v.game.toNat v.state.toNat (rng v.drawn) = WIN_STATE := by
        rw [h0]
        exact h04
      simp only [Step.vars, arrivals_switch, arrivals_transition, (switch_mtm_frame u c rng _).2.2,
        h0, h4, if_true, if_false, hv.1, hv.2]
      simp [h04]
    · simp only [Step.vars, arrivals_switch, arrivals_transition,
        (switch_mtm_frame u c rng _).2.1, h0, h4, if_true, if_false, hv.1, hv.2]
      simp [h04.symm]
    · simp only [Step.vars, arrivals_switch, arrivals_transition,
        (switch_mtm_frame u c rng _).2.1, (switch_mtm_frame u c rng _).2.2, h0, h4,
        if_false, hv.1, hv.2]
      simp
  · rw [body_fault u c rng v hb]
    exact hv

/-! ## The whole run -/

/-- C1: when the run finishes (`main` reaches `exit(0)`), the final counters
satisfy `wins + losses = numsteps`; `losses` is the number of transitions into
state 0 and `wins` the number of transitions into state 4; every finished trial
has added exactly 1 to `losses`, ending in state 0, or exactly 1 to `wins`,
ending in state 4; and `numsteps = 0` gives `wins = 0`, `losses = 0` with no
draw taken. -/
theorem main_counts (rng : Nat → ℚ) (fuel : Nat) (argc game numsteps : Int) (v : Vars)
    (h : main rng fuel argc game numsteps = Outcome.exit0 v) :
    v.wins + v.losses = numsteps ∧
    v.losses = arrivals LOSE_STATE v.log ∧ v.wins = arrivals WIN_STATE v.log ∧
    (∀ w w1 : Vars, trial (flags game).2.1 (flags game).2.2 rng fuel w = Res.done w1 →
      (w1.state = LOSE_STATE ∧ w1.losses = w.losses + 1 ∧ w1.wins = w.wins) ∨
      (w1.state = WIN_STATE ∧ w1.wins = w.wins + 1 ∧ w1.losses = w.losses)) ∧
    (numsteps = 0 → v.wins = 0 ∧ v.losses = 0 ∧ v.drawn = 0) := by
  unfold main at h
  simp only at h
  split_ifs at h with h1 h2 h3
  have hinv := trials_invariant
    (fun w => w.losses = arrivals LOSE_STATE w.log ∧ w.wins = arrivals WIN_STATE w.log)
    (flags game).2.1 (flags game).2.2 rng (fun w hw => body_counts _ _ rng w hw)
    (fun w hw => hw) fuel numsteps.toNat
    { game := (flags game).1, state := 0, losses := 0, wins := 0, drawn := 0,
      log := [] ++ [Event.seed SEED] }
    (by simp [arrivals, Event.arrives])
  cases ht : trials (flags game).2.1 (flags game).2.2 rng fuel numsteps.toNat
      { game := (flags game).1, state := 0, losses := 0, wins := 0, drawn := 0,
        log := [] ++ [Event.seed SEED] } with
  | done v1 =>
    rw [ht] at h hinv
    simp only [Outcome.exit0.injEq] at h
    subst h
    have hsum := trials_done _ _ _ _ _ _ _ ht
    simp only [zero_add] at hsum
    refine ⟨?_, hinv.1, hinv.2, ?_, ?_⟩
    · rw [hsum]
      exact Int.toNat_of_nonneg (not_lt.mp h3)
    · intro w w1 hw
      exact walk_done _ _ rng fuel { w with state := INITIAL_STATE } w1 hw
    · intro hn
      subst hn
      simp only [Int.toNat_zero, trials, Res.done.injEq] at ht
      subst ht
      simp
  | more v1 =>
    rw [ht] at h
    cases h
  | fault v1 =>
    rw [ht] at h
    cases h

/-- C1 on a run of two trials in game-type 0 whose first two draws are 35/36
and whose later draws are 0: one win, then one loss. -/
theorem main_counts_witness :
    main (fun k => if k < 2 then 35 / 36 else 0) 10 3 0 2 =
      Outcome.exit0
        { game := 0, state := 0, losses := 1, wins := 1, drawn := 4,
          log := [Event.seed 2358, Event.transition 0 2 0 3, Event.transition 0 3 1 4,
            Event.transition 0 2 2 1, Event.transition 0 1 3 0] } ∧
    (1 : Int) + 1 = 2 :=
  ⟨by decide!, (main_counts (fun k => if k < 2 then 35 / 36 else 0) 10 3 0 2
    { game := 0, state := 0, losses := 1, wins := 1, drawn := 4,
      log := [Event.seed 2358, Event.transition 0 2 0 3, Event.transition 0 3 1 4,
        Event.transition 0 2 2 1, Event.transition 0 1 3 0] } (by decide!)).1⟩

/-- With valid arguments `main` is the main loop run from the initial
variables. -/
theorem main_valid (rng : Nat → ℚ) (fuel : Nat) (game numsteps : Int)
    (hg0 : 0 ≤ game) (hg3 : game ≤ 3) (hn : 0 ≤ numsteps) :
    main rng fuel 3 game numsteps =
      match trials (flags game).2.1 (flags game).2.2 rng fuel numsteps.toNat
        { game := (flags game).1, state := 0, losses := 0, wins := 0, drawn := 0,
          log := [Event.seed SEED] } with
      | Res.done v1 => Outcome.exit0 v1
      | Res.more v1 => Outcome.running v1
      | Res.fault v1 => Outcome.fault v1 := by
  unfold main
  have h2 : ¬ (game < 0 ∨ game > 3) := by omega
  have h3 : ¬ numsteps < 0 := by omega
  simp only [ne_eq, not_true_eq_false, if_false, h2, h3, List.nil_append]

/-- With valid arguments the log of `main` is the log of the main loop. -/
theorem main_valid_log (rng : Nat → ℚ) (fuel : Nat) (game numsteps : Int)
    (hg0 : 0 ≤ game) (hg3 : game ≤ 3) (hn : 0 ≤ numsteps) :
    (main rng fuel 3 game numsteps).log =
      (trials (flags game).2.1 (flags game).2.2 rng fuel numsteps.toNat
        { game := (flags game).1, state := 0, losses := 0, wins := 0, drawn := 0,
          log := [Event.seed SEED] }).vars.log ∧
    (main rng fuel 3 game numsteps).exit_code ≠ some 1 := by
  rw [main_valid rng fuel game numsteps hg0 hg3 hn]
  cases trials (flags game).2.1 (flags game).2.2 rng fuel numsteps.toNat
      { game := (flags game).1, state := 0, losses := 0, wins := 0, drawn := 0,
        log := [Event.seed SEED] } <;>
    simp [Outcome.log, Res.vars, Outcome.exit_code]

/-- With an invalid game-type or a negative number of steps `main` goes through
`usage` with an empty log. -/
theorem main_invalid (rng : Nat → ℚ) (fuel : Nat) (game numsteps : Int)
    (h : game < 0 ∨ 3 < game ∨ numsteps < 0) :
    main rng fuel 3 game numsteps = Outcome.usage [] := by
  unfold main
  by_cases h2 : game < 0 ∨ game > 3
  · simp [h2]
  · have h3 : numsteps < 0 := by omega
    simp [h2, h3]

/-- Every pass appends to the log. -/
theorem body_log_append (u c : Bool) (rng : Nat → ℚ) (v : Vars) :
    ∃ l, (body u c rng v).vars.log = v.log ++ l := by
  have hs : ∀ w : Vars, ∃ l, (switch_mtm u c rng w).log = w.log ++ l := by
    intro w
    unfold switch_mtm
    split_ifs
    · exact ⟨_, rfl⟩
    · exact ⟨_, rfl⟩
    · exact ⟨[], by simp⟩
  by_cases hb : 0 ≤ v.game ∧ v.game < NUM_GAMES ∧ 0 ≤ v.state ∧ v.state < NUM_STATES
  · rw [body_eq u c rng v hb]
    split_ifs <;>
    · obtain ⟨l, hl⟩ := hs { v with
        state := next_state v.game.toNat v.state.toNat (rng v.drawn)
        drawn := v.drawn + 1
        log := v.log ++ [Event.transition v.game v.state v.drawn
          (next_state v.game.toNat v.state.toNat (rng v.drawn))] }
      exact ⟨[Event.transition v.game v.state v.drawn
        (next_state v.game.toNat v.state.toNat (rng v.drawn))] ++ l,
        by simp only [Step.vars, hl, List.append_assoc]⟩
  · rw [body_fault u c rng v hb]
    exact ⟨[], by simp [Step.vars]⟩

/-- C5: with three arguments, `main` goes through `usage` (exit code 1) exactly
when the game-type is outside 0..3 or the number of steps is negative, and then
the log is empty: the generator was not seeded, no draw was taken and no trial
was run.  For a game-type in 0..3 and a number of steps at least 0 the exit
code is not 1 and the log starts with the seeding of the generator. -/
theorem main_rejects (rng : Nat → ℚ) (fuel : Nat) (game numsteps : Int) :
    (main rng fuel 3 game numsteps = Outcome.usage [] ↔
      (game < 0 ∨ 3 < game ∨ numsteps < 0)) ∧
    ((main rng fuel 3 game numsteps).exit_code = some 1 ↔
      (game < 0 ∨ 3 < game ∨ numsteps < 0)) ∧
    ((main rng fuel 3 game numsteps).log = [] ↔
      (game < 0 ∨ 3 < game ∨ numsteps < 0)) ∧
    ((main rng fuel 3 game numsteps).log.head? = some (Event.seed SEED) ↔
      (0 ≤ game ∧ game ≤ 3 ∧ 0 ≤ numsteps)) := by
  by_cases h : game < 0 ∨ 3 < game ∨ numsteps < 0
  · have hm := main_invalid rng fuel game numsteps h
    have hn : ¬ (0 ≤ game ∧ game ≤ 3 ∧ 0 ≤ numsteps) := by omega
    simp [hm, h, hn, Outcome.exit_code, Outcome.log]
  · have hv : 0 ≤ game ∧ game ≤ 3 ∧ 0 ≤ numsteps := by omega
    obtain ⟨hlog, hcode⟩ := main_valid_log rng fuel game numsteps hv.1 hv.2.1 hv.2.2
    have hhead := trials_invariant (fun w => w.log.head? = some (Event.seed SEED))
      (flags game).2.1 (flags game).2.2 rng
      (fun w hw => by
        obtain ⟨l, hl⟩ := body_log_append (flags game).2.1 (flags game).2.2 rng w
        rw [hl]
        cases hwl : w.log with
        | nil => simp [hwl] at hw
        | cons e t => simpa [hwl] using hw)
      (fun w hw => hw) fuel numsteps.toNat
      { game := (flags game).1, state := 0, losses := 0, wins := 0, drawn := 0,
        log := [Event.seed SEED] } rfl
    replace hhead : (main rng fuel 3 game numsteps).log.head? = some (Event.seed SEED) := by
      rw [hlog]
      exact hhead
    have hne : (main rng fuel 3 game numsteps).log ≠ [] := by
      intro h0
      rw [h0] at hhead
      simp at hhead
    have hnu : main rng fuel 3 game numsteps ≠ Outcome.usage [] := by
      intro h0
      rw [h0] at hne
      simp [Outcome.log] at hne
    simp [h, hv, hhead, hne, hnu, hcode]

/-! ## Fixed modes -/

/-- Without a flag the switch does nothing. -/
theorem switch_mtm_off (rng : Nat → ℚ) (v : Vars) : switch_mtm false false rng v = v := by
  simp [switch_mtm]

/-- Without a flag a pass keeps the game, and records only a transition that
sampled that game. -/
theorem body_fixed (rng : Nat → ℚ) (game : Int) (v : Vars)
    (hv : v.game = game ∧ ∀ e ∈ v.log,
      (∀ g s k n, e = Event.transition g s k n → g = game) ∧
      (∀ s k g, e ≠ Event.selection s k g)) :
    (body false false rng v).vars.game = game ∧ ∀ e ∈ (body false false rng v).vars.log,
      (∀ g s k n, e = Event.transition g s k n → g = game) ∧
      (∀ s k g, e ≠ Event.selection s k g) := by
  by_cases hb : 0 ≤ v.game ∧ v.game < NUM_GAMES ∧ 0 ≤ v.state ∧ v.state < NUM_STATES
  · rw [body_eq false false rng v hb]
    simp only [switch_mtm_off]
    split_ifs <;>
    · simp only [Step.vars]
      refine ⟨hv.1, ?_⟩
      intro e he
      rcases List.mem_append.mp he with h | h
      · exact hv.2 e h
      · simp only [List.mem_singleton] at h
        subst h
        simp only [hv.1, Event.transition.injEq, ne_eq, reduceCtorEq, not_false_eq_true,
          implies_true, and_true]
        intro g s k n hgn
        exact hgn.1.symm
  · rw [body_fault false false rng v hb]
    exact hv

/-- C6: in game-types 0 and 1 no flag is set, and at every transition of the
run, whatever the draws and however long the run, the row sampled is a row of
the matrix of that game-type; the matrix is never switched. -/
theorem fixed_game (rng : Nat → ℚ) (fuel : Nat) (game numsteps : Int)
    (hg : game = 0 ∨ game = 1) :
    flags game = (game, false, false) ∧
    ∀ e ∈ (main rng fuel 3 game numsteps).log,
      (∀ g s k n, e = Event.transition g s k n → g = game) ∧
      (∀ s k g, e ≠ Event.selection s k g) := by
  have hf : flags game = (game, false, false) := by
    rcases hg with rfl | rfl <;> simp [flags]
  refine ⟨hf, ?_⟩
  by_cases hn : numsteps < 0
  · rw [main_invalid rng fuel game numsteps (Or.inr (Or.inr hn))]
    simp [Outcome.log]
  · have hg0 : 0 ≤ game := by omega
    have hg3 : game ≤ 3 := by omega
    rw [(main_valid_log rng fuel game numsteps hg0 hg3 (not_lt.mp hn)).1, hf]
    exact (trials_invariant
      (fun w => w.game = game ∧ ∀ e ∈ w.log,
        (∀ g s k n, e = Event.transition g s k n → g = game) ∧
        (∀ s k g, e ≠ Event.selection s k g))
      false false rng (fun w hw => body_fixed rng game w hw) (fun w hw => hw)
      fuel numsteps.toNat
      { game := game, state := 0, losses := 0, wins := 0, drawn := 0,
        log := [Event.seed SEED] } (by simp)).2

/-- C6 on a run of two trials in game-type 1 with every draw 0: its four
transitions all sample game 1. -/
theorem fixed_game_witness :
    (main (fun _ => 0) 10 3 1 2).log =
      [Event.seed 2358, Event.transition 1 2 0 1, Event.transition 1 1 1 0,
        Event.transition 1 2 2 1, Event.transition 1 1 3 0] ∧
    ∀ e ∈ (main (fun _ => 0) 10 3 1 2).log,
      (∀ g s k n, e = Event.transition g s k n → g = 1) ∧
      (∀ s k g, e ≠ Event.selection s k g) :=
  ⟨by decide!, (fixed_game (fun _ => 0) 10 1 2 (Or.inr rfl)).2⟩

/-! ## The analytic reference values -/

/-- The absorption equations written out at the three transient states. -/
theorem absorption_iff (M : Nat → Nat → ℚ) (h : Fin 5 → ℚ) :
    absorption M h ↔ h 0 = 0 ∧ h 4 = 1 ∧
      h 1 = M 1 0 * h 0 + M 1 1 * h 1 + M 1 2 * h 2 + M 1 3 * h 3 + M 1 4 * h 4 ∧
      h 2 = M 2 0 * h 0 + M 2 1 * h 1 + M 2 2 * h 2 + M 2 3 * h 3 + M 2 4 * h 4 ∧
      h 3 = M 3 0 * h 0 + M 3 1 * h 1 + M 3 2 * h 2 + M 3 3 * h 3 + M 3 4 * h 4 := by
  unfold absorption
  constructor
  · rintro ⟨h0, h4, he⟩
    refine ⟨h0, h4, ?_, ?_, ?_⟩
    · simpa [Fin.sum_univ_five] using he 1 (by decide) (by decide)
    · simpa [Fin.sum_univ_five] using he 2 (by decide) (by decide)
    · simpa [Fin.sum_univ_five] using he 3 (by decide) (by decide)
  · rintro ⟨h0, h4, e1, e2, e3⟩
    refine ⟨h0, h4, ?_⟩
    intro s hs0 hs4
    fin_cases s
    · exact absurd rfl hs0
    · simpa [Fin.sum_univ_five] using e1
    · simpa [Fin.sum_univ_five] using e2
    · simpa [Fin.sum_univ_five] using e3
    · exact absurd rfl hs4

/-- A function on the five states is the list of its five values. -/
theorem fin5_ext (h : Fin 5 → ℚ) (a b c d e : ℚ) :
    h = ![a, b, c, d, e] ↔ h 0 = a ∧ h 1 = b ∧ h 2 = c ∧ h 3 = d ∧ h 4 = e := by
  constructor
  · rintro rfl
    simp
  · rintro ⟨h0, h1, h2, h3, h4⟩
    funext s
    fin_cases s
    · exact h0
    · exact h1
    · exact h2
    · exact h3
    · exact h4

/-- The absorption equations of game 0 have exactly one solution. -/
theorem absorption_game0 (h : Fin 5 → ℚ) :
    absorption (game_mm 0) h ↔ h = ![0, 8 / 27, 4 / 9, 22 / 27, 1] := by
  obtain ⟨⟨a0, a1, a2, a3, a4⟩, ⟨b0, b1, b2, b3, b4⟩, ⟨c0, c1, c2, c3, c4⟩, -, -, -⟩ :=
    game_mm_values
  rw [absorption_iff, fin5_ext]
  simp only [a0, a1, a2, a3, a4, b0, b1, b2, b3, b4, c0, c1, c2, c3, c4]
  constructor
  · rintro ⟨h0, h4, e1, e2, e3⟩
    refine ⟨h0, ?_, ?_, ?_, h4⟩ <;> linarith
  · rintro ⟨h0, h1, h2, h3, h4⟩
    rw [h0, h1, h2, h3, h4]
    norm_num

/-- The absorption equations of game 1 have exactly one solution. -/
theorem absorption_game1 (h : Fin 5 → ℚ) :
    absorption (game_mm 1) h ↔ h = ![0, 8 / 63, 4 / 9, 38 / 63, 1] := by
  obtain ⟨-, -, -, ⟨a0, a1, a2, a3, a4⟩, ⟨b0, b1, b2, b3, b4⟩, ⟨c0, c1, c2, c3, c4⟩⟩ :=
    game_mm_values
  rw [absorption_iff, fin5_ext]
  simp only [a0, a1, a2, a3, a4, b0, b1, b2, b3, b4, c0, c1, c2, c3, c4]
  constructor
  · rintro ⟨h0, h4, e1, e2, e3⟩
    refine ⟨h0, ?_, ?_, ?_, h4⟩ <;> linarith
  · rintro ⟨h0, h1, h2, h3, h4⟩
    rw [h0, h1, h2, h3, h4]
    norm_num

/-- The absorption equations of uniform switching have exactly one solution. -/
theorem absorption_uniform (h : Fin 5 → ℚ) :
    absorption uniform_kernel h ↔ h = ![0, 1000 / 3439, 100 / 181, 2710 / 3439, 1] := by
  obtain ⟨⟨a0, a1, a2, a3, a4⟩, ⟨b0, b1, b2, b3, b4⟩, ⟨c0, c1, c2, c3, c4⟩,
    ⟨d0, d1, d2, d3, d4⟩, ⟨e0, e1, e2, e3, e4⟩, ⟨f0, f1, f2, f3, f4⟩⟩ := game_mm_values
  rw [absorption_iff, fin5_ext]
  simp only [uniform_kernel, a0, a1, a2, a3, a4, b0, b1, b2, b3, b4, c0, c1, c2, c3, c4,
    d0, d1, d2, d3, d4, e0, e1, e2, e3, e4, f0, f1, f2, f3, f4]
  constructor
  · rintro ⟨h0, h4, e1, e2, e3⟩
    refine ⟨h0, ?_, ?_, ?_, h4⟩ <;> linarith
  · rintro ⟨h0, h1, h2, h3, h4⟩
    rw [h0, h1, h2, h3, h4]
    norm_num

/-- C4: for each of game 0, game 1 and uniform switching the absorption
equations have exactly one solution `h`, and the loss/win ratio
`(1 - h 2) / h 2` from state 2 is the printed reference value: 20/16 for game
0, 20/16 for game 1 and 81/100 for uniform switching.  So each game alone
loses more often than it wins, and the uniform mixture wins more often than it
loses. -/
theorem analytic_reference :
    (∃ h, absorption (game_mm 0) h ∧ (1 - h 2) / h 2 = analytic_game0 ∧
      ∀ k, absorption (game_mm 0) k → k = h) ∧
    (∃ h, absorption (game_mm 1) h ∧ (1 - h 2) / h 2 = analytic_game1 ∧
      ∀ k, absorption (game_mm 1) k → k = h) ∧
    (∃ h, absorption uniform_kernel h ∧ (1 - h 2) / h 2 = analytic_uniform ∧
      ∀ k, absorption uniform_kernel k → k = h) ∧
    1 < analytic_game0 ∧ 1 < analytic_game1 ∧ analytic_uniform < 1 := by
  refine ⟨⟨_, (absorption_game0 _).mpr rfl, ?_, fun k hk => (absorption_game0 k).mp hk⟩,
    ⟨_, (absorption_game1 _).mpr rfl, ?_, fun k hk => (absorption_game1 k).mp hk⟩,
    ⟨_, (absorption_uniform _).mpr rfl, ?_, fun k hk => (absorption_uniform k).mp hk⟩,
    ?_, ?_, ?_⟩
  · simp [analytic_game0]
    norm_num
  · simp [analytic_game1]
    norm_num
  · simp [analytic_uniform]
    norm_num
  · norm_num [analytic_game0]
  · norm_num [analytic_game1]
  · norm_num [analytic_uniform]

/-! ## Safety of the walk -/

/-- From a transient state the sampling loop moves at most one state, for a
draw in [0,1). -/
theorem next_state_near (g s : Nat) (r : ℚ) (hg : g < NUM_GAMES) (hs1 : 1 ≤ s)
    (hs3 : s ≤ 3) (hr0 : 0 ≤ r) (hr1 : r < 1) :
    next_state g s r = (s : Int) - 1 ∨ next_state g s r = s ∨
      next_state g s r = (s : Int) + 1 := by
  obtain ⟨⟨a0, a1, a2, a3, a4⟩, ⟨b0, b1, b2, b3, b4⟩, ⟨c0, c1, c2, c3, c4⟩,
    ⟨d0, d1, d2, d3, d4⟩, ⟨e0, e1, e2, e3, e4⟩, ⟨f0, f1, f2, f3, f4⟩⟩ := game_mm_values
  have hg2 : g = 0 ∨ g = 1 := by simp only [NUM_GAMES] at hg; omega
  have hs2 : s = 1 ∨ s = 2 ∨ s = 3 := by omega
  rw [next_state_unfold]
  rcases hg2 with rfl | rfl <;> rcases hs2 with rfl | rfl | rfl <;>
    simp only [a0, a1, a2, a3, a4, b0, b1, b2, b3, b4, c0, c1, c2, c3, c4,
      d0, d1, d2, d3, d4, e0, e1, e2, e3, e4, f0, f1, f2, f3, f4] <;>
    split_ifs <;> first | omega | (exfalso; linarith)

/-- On [0,1) the function `rint` is 0 or 1. -/
theorem rint_unit (x : ℚ) (h0 : 0 ≤ x) (h1 : x < 1) : rint x = 0 ∨ rint x = 1 := by
  rcases le_or_lt x (1 / 2) with h | h
  · exact Or.inl (rint_of_le_half x h0 h)
  · exact Or.inr (rint_of_gt_half x h h1)

/-- The order parameter of a state in 0..4 lies in [0,1]. -/
theorem phi_unit (s : Int) (h0 : 0 ≤ s) (h4 : s ≤ 4) : 0 ≤ phi s ∧ phi s ≤ 1 := by
  have h0q : (0 : ℚ) ≤ (s : ℚ) := by exact_mod_cast h0
  have h4q : (s : ℚ) ≤ 4 := by exact_mod_cast h4
  unfold phi
  simp only [NUM_STATES]
  norm_num
  constructor
  · positivity
  · rw [div_le_one (by norm_num)]
    exact h4q

/-- With draws in [0,1) and a state in 0..4 the switch leaves the game in
0..1. -/
theorem switch_mtm_game (u c : Bool) (rng : Nat → ℚ) (v : Vars)
    (hr : ∀ k, 0 ≤ rng k ∧ rng k < 1) (hg : v.game = 0 ∨ v.game = 1)
    (h0 : 0 ≤ v.state) (h4 : v.state ≤ 4) :
    (switch_mtm u c rng v).game = 0 ∨ (switch_mtm u c rng v).game = 1 := by
  unfold switch_mtm
  split_ifs
  · exact rint_unit _ (hr _).1 (hr _).2
  · obtain ⟨p0, p1⟩ := phi_unit v.state h0 h4
    refine rint_unit _ (mul_nonneg p0 (hr _).1) ?_
    calc phi v.state * rng v.drawn ≤ 1 * rng v.drawn :=
          mul_le_mul_of_nonneg_right p1 (hr _).1
      _ = rng v.drawn := one_mul _
      _ < 1 := (hr _).2
  · exact hg

/-- With draws in [0,1), a pass from a transient state with a game in 0..1
does not fault: it ends in `break`, or goes on from a transient state with a
game in 0..1 and the counters unchanged. -/
theorem body_safe (u c : Bool) (rng : Nat → ℚ) (v : Vars)
    (hr : ∀ k, 0 ≤ rng k ∧ rng k < 1) (hg : v.game = 0 ∨ v.game = 1)
    (hs1 : 1 ≤ v.state) (hs3 : v.state ≤ 3) :
    (∃ v1, body u c rng v = Step.next v1 ∧ (v1.game = 0 ∨ v1.game = 1) ∧
      1 ≤ v1.state ∧ v1.state ≤ 3 ∧ v1.losses = v.losses ∧ v1.wins = v.wins) ∨
    (∃ v1, body u c rng v = Step.brk v1) := by
  have hb : 0 ≤ v.game ∧ v.game < NUM_GAMES ∧ 0 ≤ v.state ∧ v.state < NUM_STATES := by
    simp only [NUM_GAMES, NUM_STATES]
    omega
  have hn := next_state_near v.game.toNat v.state.toNat (rng v.drawn)
    (by simp only [NUM_GAMES]; omega) (by omega) (by omega) (hr _).1 (hr _).2
  have hcast : ((v.state.toNat : Nat) : Int) = v.state := Int.toNat_of_nonneg (by omega)
  rw [hcast] at hn
  rw [body_eq u c rng v hb]
  split_ifs with h0 h4
  · exact Or.inr ⟨_, rfl⟩
  · exact Or.inr ⟨_, rfl⟩
  · left
    simp only [LOSE_STATE, WIN_STATE] at h0 h4
    refine ⟨_, rfl, ?_, ?_, ?_, ?_, ?_⟩
    · refine switch_mtm_game u c rng _ hr ?_ ?_ ?_
      · exact hg
      · show 0 ≤ next_state v.game.toNat v.state.toNat (rng v.drawn)
        omega
      · show next_state v.game.toNat v.state.toNat (rng v.drawn) ≤ 4
        omega
    · rw [(switch_mtm_frame u c rng _).1]
      show 1 ≤ next_state v.game.toNat v.state.toNat (rng v.drawn)
      omega
    · rw [(switch_mtm_frame u c rng _).1]
      show next_state v.game.toNat v.state.toNat (rng v.drawn) ≤ 3
      omega
    · rw [(switch_mtm_frame u c rng _).2.1]
    · rw [(switch_mtm_frame u c rng _).2.2]

/-- With draws in [0,1), a walk from a transient state with a game in 0..1
never faults: it has finished, or is still in a transient state with the
counters unchanged. -/
theorem walk_safe (u c : Bool) (rng : Nat → ℚ) (hr : ∀ k, 0 ≤ rng k ∧ rng k < 1)
    (fuel : Nat) (v : Vars) (hg : v.game = 0 ∨ v.game = 1)
    (hs1 : 1 ≤ v.state) (hs3 : v.state ≤ 3) :
    (∃ v1, walk u c rng fuel v = Res.done v1) ∨
    (∃ v1, walk u c rng fuel v = Res.more v1 ∧ (v1.game = 0 ∨ v1.game = 1) ∧
      1 ≤ v1.state ∧ v1.state ≤ 3 ∧ v1.losses = v.losses ∧ v1.wins = v.wins) := by
  induction fuel generalizing v with
  | zero => exact Or.inr ⟨v, rfl, hg, hs1, hs3, rfl, rfl⟩
  | succ n ih =>
    rw [walk]
    rcases body_safe u c rng v hr hg hs1 hs3 with ⟨v1, hb, hg1, h1, h3, hl, hw⟩ | ⟨v1, hb⟩
    · rw [hb]
      rcases ih v1 hg1 h1 h3 with hd | ⟨v2, hm, hg2, h21, h23, hl2, hw2⟩
      · exact Or.inl hd
      · exact Or.inr ⟨v2, hm, hg2, h21, h23, hl2.trans hl, hw2.trans hw⟩
    · rw [hb]
      exact Or.inl ⟨v1, rfl⟩

/-- A draw in [0, 1/9) moves the walk from state 2 to state 1 and from state 1
to state 0, in either game. -/
theorem next_state_small (g : Nat) (r : ℚ) (hg : g < NUM_GAMES) (hr0 : 0 ≤ r)
    (hr : r < 1 / 9) : next_state g 2 r = 1 ∧ next_state g 1 r = 0 := by
  obtain ⟨⟨a0, a1, a2, a3, a4⟩, ⟨b0, b1, b2, b3, b4⟩, -,
    ⟨d0, d1, d2, d3, d4⟩, ⟨e0, e1, e2, e3, e4⟩, -⟩ := game_mm_values
  have hg2 : g = 0 ∨ g = 1 := by simp only [NUM_GAMES] at hg; omega
  rw [next_state_unfold, next_state_unfold]
  rcases hg2 with rfl | rfl <;>
    simp only [a0, a1, a2, a3, a4, b0, b1, b2, b3, b4, d0, d1, d2, d3, d4,
      e0, e1, e2, e3, e4] <;>
    constructor <;> split_ifs <;> first | rfl | (exfalso; linarith)

/-- With every draw in [0, 1/9) a walk from state 2 of at least two passes
ends in state 0. -/
theorem walk_small_draws (u c : Bool) (rng : Nat → ℚ)
    (hr : ∀ k, 0 ≤ rng k ∧ rng k < 1) (hsmall : ∀ k, rng k < 1 / 9) (fuel : Nat)
    (hf : 2 ≤ fuel) (v : Vars) (hg : v.game = 0 ∨ v.game = 1) (hs : v.state = 2) :
    ∃ v1, walk u c rng fuel v = Res.done v1 ∧ v1.state = LOSE_STATE := by
  obtain ⟨n, rfl⟩ : ∃ n, fuel = n + 2 := ⟨fuel - 2, by omega⟩
  have hb : 0 ≤ v.game ∧ v.game < NUM_GAMES ∧ 0 ≤ v.state ∧ v.state < NUM_STATES := by
    simp only [NUM_GAMES, NUM_STATES]
    omega
  have hgn : v.game.toNat < NUM_GAMES := by simp only [NUM_GAMES]; omega
  have h21 := (next_state_small v.game.toNat (rng v.drawn) hgn (hr _).1 (hsmall _)).1
  have hst : v.state.toNat = 2 := by omega
  rw [walk, body_eq u c rng v hb, hst, h21]
  simp only [LOSE_STATE, WIN_STATE, one_ne_zero, if_false, show ¬ ((1 : Int) = 4) by decide]
  generalize hv1 : switch_mtm u c rng
    { v with
      state := 1
      drawn := v.drawn + 1
      log := v.log ++ [Event.transition v.game v.state v.drawn 1] } = v1
  have hs1 : v1.state = 1 := by
    rw [← hv1, (switch_mtm_frame u c rng _).1]
  have hg1 : v1.game = 0 ∨ v1.game = 1 := by
    rw [← hv1]
    exact switch_mtm_game u c rng _ hr hg (by simp) (by simp)
  have hb1 : 0 ≤ v1.game ∧ v1.game < NUM_GAMES ∧ 0 ≤ v1.state ∧ v1.state < NUM_STATES := by
    simp only [NUM_GAMES, NUM_STATES]
    omega
  have hgn1 : v1.game.toNat < NUM_GAMES := by simp only [NUM_GAMES]; omega
  have h10 := (next_state_small v1.game.toNat (rng v1.drawn) hgn1 (hr _).1 (hsmall _)).2
  have hst1 : v1.state.toNat = 1 := by omega
  rw [walk, body_eq u c rng v1 hb1, hst1, h10]
  simp only [LOSE_STATE, if_true]
  refine ⟨_, rfl, ?_⟩
  simp only [(switch_mtm_frame u c rng _).1]

/-- In game 0 the draw 1/2 keeps the walk at state 2. -/
theorem walk_half_stays (fuel : Nat) (v : Vars) (hg : v.game = 0) (hs : v.state = 2) :
    ∃ v1, walk false false (fun _ => 1 / 2) fuel v = Res.more v1 ∧ v1.game = 0 ∧
      v1.state = 2 ∧ v1.drawn = v.drawn + fuel ∧ v1.losses = v.losses ∧
      v1.wins = v.wins := by
  induction fuel generalizing v with
  | zero => exact ⟨v, rfl, hg, hs, rfl, rfl, rfl⟩
  | succ n ih =>
    have hb : 0 ≤ v.game ∧ v.game < NUM_GAMES ∧ 0 ≤ v.state ∧ v.state < NUM_STATES := by
      simp only [NUM_GAMES, NUM_STATES]
      omega
    have h22 : next_state 0 2 (1 / 2) = 2 :=
      (next_state_game0_mid (1 / 2) (by norm_num) (by norm_num)).2.1 (by norm_num)
        (by norm_num)
    rw [walk, body_eq false false _ v hb, hg, hs]
    simp only [Int.toNat_zero, show (2 : Int).toNat = 2 from rfl, h22, switch_mtm_off,
      LOSE_STATE, WIN_STATE, show ¬ ((2 : Int) = 0) by decide,
      show ¬ ((2 : Int) = 4) by decide, if_false]
    obtain ⟨v1, hw, hg1, hs1, hd1, hl1, hw1⟩ := ih
      { game := 0, state := 2, losses := v.losses, wins := v.wins, drawn := v.drawn + 1,
        log := v.log ++ [Event.transition 0 2 v.drawn 2] } rfl rfl
    exact ⟨v1, hw, hg1, hs1, by rw [hd1]; simp only; omega, hl1, hw1⟩

/-! ## Termination of a trial -/

/-- In game-type 0 with every draw equal to 1/2 the first trial is still
running, at state 2, when the fuel is used up. -/
theorem main_half_running (fuel : Nat) :
    ∃ v, main (fun _ => 1 / 2) fuel 3 0 1 = Outcome.running v ∧ v.state = 2 ∧
      v.drawn = fuel ∧ v.wins = 0 ∧ v.losses = 0 := by
  obtain ⟨v1, hw, -, hs, hd, hl, hwi⟩ := walk_half_stays fuel
    { game := 0, state := INITIAL_STATE, losses := 0, wins := 0, drawn := 0,
      log := [Event.seed SEED] } rfl rfl
  refine ⟨v1, ?_, hs, by simpa using hd, hwi, hl⟩
  rw [main_valid _ _ _ _ (by decide) (by decide) (by decide)]
  have h1 : (1 : Int).toNat = 0 + 1 := rfl
  have hf : flags 0 = (0, false, false) := by simp [flags]
  rw [h1, trials, trial, hf]
  simp only [hw]

/-- C9, counterexample: in game-type 0 with every draw equal to 1/2 the first
trial has not returned after 10,000 transitions; the walk is still at state 2
and nothing has been counted. -/
theorem trial_unbounded :
    ∃ v, main (fun _ => 1 / 2) 10000 3 0 1 = Outcome.running v ∧ v.state = 2 ∧
      v.drawn = 10000 ∧ v.wins = 0 ∧ v.losses = 0 :=
  main_half_running 10000

/-- C9, amended: with draws in [0,1) and a game in 0..1 at its start, a trial
never faults; after any number of passes it has either returned, having
counted exactly one loss at state 0 or exactly one win at state 4, or it is
still walking in a transient state 1..3 with nothing counted.  It returns
within two transitions when every draw is below 1/9; no number of transitions
is enough for every sequence of draws. -/
theorem trial_outcome (u c : Bool) (rng : Nat → ℚ) (fuel : Nat) (v : Vars)
    (hr : ∀ k, 0 ≤ rng k ∧ rng k < 1) (hg : v.game = 0 ∨ v.game = 1) :
    ((∃ v1, trial u c rng fuel v = Res.done v1 ∧
        ((v1.state = LOSE_STATE ∧ v1.losses = v.losses + 1 ∧ v1.wins = v.wins) ∨
         (v1.state = WIN_STATE ∧ v1.wins = v.wins + 1 ∧ v1.losses = v.losses))) ∨
      (∃ v1, trial u c rng fuel v = Res.more v1 ∧ 1 ≤ v1.state ∧ v1.state ≤ 3 ∧
        v1.losses = v.losses ∧ v1.wins = v.wins)) ∧
    ((∀ k, rng k < 1 / 9) → 2 ≤ fuel →
      ∃ v1, trial u c rng fuel v = Res.done v1 ∧ v1.state = LOSE_STATE) ∧
    (∀ n : Nat, ∃ rng1 : Nat → ℚ, (∀ k, 0 ≤ rng1 k ∧ rng1 k < 1) ∧
      ∃ v1, trial false false rng1 n { v with game := 0 } = Res.more v1) := by
  refine ⟨?_, ?_, ?_⟩
  · rcases walk_safe u c rng hr fuel { v with state := INITIAL_STATE } hg
      (by simp [INITIAL_STATE]) (by simp [INITIAL_STATE]) with
      ⟨v1, hd⟩ | ⟨v1, hm, -, h1, h3, hl, hw⟩
    · exact Or.inl ⟨v1, hd,
        walk_done u c rng fuel { v with state := INITIAL_STATE } v1 hd⟩
    · exact Or.inr ⟨v1, hm, h1, h3, hl, hw⟩
  · intro hsmall hf
    exact walk_small_draws u c rng hr hsmall fuel hf { v with state := INITIAL_STATE } hg rfl
  · intro n
    refine ⟨fun _ => 1 / 2, fun _ => by norm_num, ?_⟩
    obtain ⟨v1, hw, -⟩ := walk_half_stays n
      { game := 0, state := INITIAL_STATE, losses := v.losses, wins := v.wins,
        drawn := v.drawn, log := v.log } rfl rfl
    exact ⟨v1, hw⟩

/-- C9, amended, on a trial in game-type 3 with every draw 0: it returns with
a loss. -/
theorem trial_outcome_witness :
    ∃ v1, trial false true (fun _ => 0) 5 ⟨0, 0, 0, 0, 0, []⟩ = Res.done v1 ∧
      v1.state = LOSE_STATE :=
  (trial_outcome false true (fun _ => 0) 5 ⟨0, 0, 0, 0, 0, []⟩ (fun _ => by norm_num)
    (Or.inl rfl)).2.1 (fun _ => by norm_num) (by decide)

/-! ## The switching modes -/

/-- The three ways a pass can end, each with its own property. -/
theorem walk_phases (P Q T : Vars → Prop) (u c : Bool) (rng : Nat → ℚ)
    (hstep : ∀ v, P v →
      match body u c rng v with
      | Step.next v1 => P v1
      | Step.brk v1 => Q v1
      | Step.fault v1 => T v1)
    (fuel : Nat) (v : Vars) (hv : P v) :
    match walk u c rng fuel v with
    | Res.done v1 => Q v1
    | Res.more v1 => P v1
    | Res.fault v1 => T v1 := by
  induction fuel generalizing v with
  | zero => simpa [walk] using hv
  | succ n ih =>
    have h := hstep v hv
    rw [walk]
    cases hb : body u c rng v with
    | next v1 =>
      rw [hb] at h
      exact ih v1 h
    | brk v1 =>
      rw [hb] at h
      exact h
    | fault v1 =>
      rw [hb] at h
      exact h

/-- A property `Q` between trials and a property `P` inside a trial. -/
theorem trials_phases (P Q T : Vars → Prop) (u c : Bool) (rng : Nat → ℚ)
    (hstep : ∀ v, P v →
      match body u c rng v with
      | Step.next v1 => P v1
      | Step.brk v1 => Q v1
      | Step.fault v1 => T v1)
    (hreset : ∀ v, Q v → P { v with state := INITIAL_STATE })
    (fuel n : Nat) (v : Vars) (hv : Q v) :
    match trials u c rng fuel n v with
    | Res.done v1 => Q v1
    | Res.more v1 => P v1
    | Res.fault v1 => T v1 := by
  induction n generalizing v with
  | zero => simpa [trials] using hv
  | succ n ih =>
    have h := walk_phases P Q T u c rng hstep fuel _ (hreset v hv)
    rw [trials, trial]
    cases hw : walk u c rng fuel { v with state := INITIAL_STATE } with
    | done v1 =>
      rw [hw] at h
      exact ih v1 h
    | more v1 =>
      rw [hw] at h
      exact h
    | fault v1 =>
      rw [hw] at h
      exact h

/-- With a flag set the switch takes one draw and assigns `switched`. -/
theorem switch_mtm_on (u c : Bool) (h : u = true ∨ c = true) (rng : Nat → ℚ) (v : Vars) :
    switch_mtm u c rng v =
      { v with
        game := switched u v.state (rng v.drawn)
        drawn := v.drawn + 1
        log := v.log ++ [Event.selection v.state v.drawn (switched u v.state (rng v.drawn))] } := by
  unfold switch_mtm switched
  rcases h with rfl | rfl
  · simp
  · cases u <;> simp

/-- The log of a pass in a switching mode: what it appends, and how the
variables stand afterwards. -/
theorem body_switching (u c : Bool) (h : u = true ∨ c = true) (rng : Nat → ℚ) (v : Vars)
    (hb : 0 ≤ v.game ∧ v.game < NUM_GAMES ∧ 0 ≤ v.state ∧ v.state < NUM_STATES) :
    (body u c rng v).vars.log = v.log ++
      [Event.transition v.game v.state v.drawn
          (next_state v.game.toNat v.state.toNat (rng v.drawn)),
        Event.selection (next_state v.game.toNat v.state.toNat (rng v.drawn)) (v.drawn + 1)
          (switched u (next_state v.game.toNat v.state.toNat (rng v.drawn))
            (rng (v.drawn + 1)))] ∧
    (body u c rng v).vars.game =
      switched u (next_state v.game.toNat v.state.toNat (rng v.drawn)) (rng (v.drawn + 1)) ∧
    (body u c rng v).vars.state = next_state v.game.toNat v.state.toNat (rng v.drawn) ∧
    (body u c rng v).vars.drawn = v.drawn + 2 ∧
    ((∃ v1, body u c rng v = Step.brk v1) ↔
      (next_state v.game.toNat v.state.toNat (rng v.drawn) = LOSE_STATE ∨
        next_state v.game.toNat v.state.toNat (rng v.drawn) = WIN_STATE)) ∧
    ∀ v1, body u c rng v ≠ Step.fault v1 := by
  rw [body_eq u c rng v hb]
  simp only [switch_mtm_on u c h]
  split_ifs <;> simp [Step.vars, *]


/-- How the variables at the head of a pass stand to the last entry `e` of the
log, in a switching mode. -/
theorem follows_link (u : Bool) (rng : Nat → ℚ) (e : Event) (w : Vars)
    (hl : (∃ x, e = Event.seed x ∧ w.game = 0 ∧ w.state = INITIAL_STATE ∧ w.drawn = 0) ∨
      (∃ s1 k1, e = Event.selection s1 k1 w.game ∧ w.game = switched u s1 (rng k1) ∧
        w.state = resumed s1 ∧ w.drawn = k1 + 1))
    (hb : 0 ≤ w.game ∧ w.game < NUM_GAMES ∧ 0 ≤ w.state ∧ w.state < NUM_STATES) :
    follows u rng e (Event.transition w.game w.state w.drawn
      (next_state w.game.toNat w.state.toNat (rng w.drawn))) := by
  rcases hl with ⟨x, rfl, hg, hs, hd⟩ | ⟨s1, k1, rfl, hg, hs, hd⟩
  · simp only [follows]
    exact ⟨hg, hs, hd, trivial⟩
  · simp only [follows]
    exact ⟨trivial, hg, hs, hb, hd, trivial⟩

/-- In a switching mode the log of the main loop is a chain of `follows`. -/
theorem trials_follows (u c : Bool) (h : u = true ∨ c = true) (rng : Nat → ℚ)
    (fuel n : Nat) (g : Int) :
    List.Chain' (follows u rng)
      (trials u c rng fuel n
        { game := 0, state := g, losses := 0, wins := 0, drawn := 0,
          log := [Event.seed SEED] }).vars.log := by
  have key := trials_phases
    (fun w => List.Chain' (follows u rng) w.log ∧ ∃ e, w.log.getLast? = some e ∧
      ((∃ x, e = Event.seed x ∧ w.game = 0 ∧ w.state = INITIAL_STATE ∧ w.drawn = 0) ∨
      (∃ s1 k1, e = Event.selection s1 k1 w.game ∧ w.game = switched u s1 (rng k1) ∧
        w.state = resumed s1 ∧ w.drawn = k1 + 1)))
    (fun w => List.Chain' (follows u rng) w.log ∧ ∃ e, w.log.getLast? = some e ∧
      ((∃ x, e = Event.seed x ∧ w.game = 0 ∧ w.drawn = 0) ∨
      (∃ s1 k1, e = Event.selection s1 k1 w.game ∧ w.game = switched u s1 (rng k1) ∧
        INITIAL_STATE = resumed s1 ∧ w.drawn = k1 + 1)))
    (fun w => List.Chain' (follows u rng) w.log) u c rng ?_ ?_ fuel n
    { game := 0, state := g, losses := 0, wins := 0, drawn := 0, log := [Event.seed SEED] }
    ?_
  · revert key
    cases trials u c rng fuel n
      { game := 0, state := g, losses := 0, wins := 0, drawn := 0,
        log := [Event.seed SEED] } with
    | done v1 => exact fun k => k.1
    | more v1 => exact fun k => k.1
    | fault v1 => exact fun k => k
  · rintro v ⟨hch, e, hlast, hlink⟩
    by_cases hb : 0 ≤ v.game ∧ v.game < NUM_GAMES ∧ 0 ≤ v.state ∧ v.state < NUM_STATES
    · obtain ⟨hlog, hgame, hstate, hdrawn, hbrk, hnf⟩ := body_switching u c h rng v hb
      have hchain : List.Chain' (follows u rng) (body u c rng v).vars.log := by
        rw [hlog, List.chain'_append]
        refine ⟨hch, ?_, ?_⟩
        · simp [List.chain'_cons, follows]
        · intro x hx y hy
          rw [hlast] at hx
          simp only [Option.mem_def, Option.some.injEq, List.head?_cons] at hx hy
          subst hx
          subst hy
          exact follows_link u rng e v hlink hb
      have hl : (body u c rng v).vars.log.getLast? = some
          (Event.selection (body u c rng v).vars.state (v.drawn + 1)
            (body u c rng v).vars.game) := by
        rw [hlog, hgame, hstate]
        simp [List.getLast?_append]
      cases hbd : body u c rng v with
      | next v1 =>
        rw [hbd] at hchain hl hgame hstate hdrawn
        simp only [Step.vars] at hchain hl hgame hstate hdrawn
        have hnb : ¬ (v1.state = LOSE_STATE ∨ v1.state = WIN_STATE) := by
          rw [hstate]
          intro hh
          obtain ⟨w, hw⟩ := hbrk.mpr hh
          rw [hbd] at hw
          cases hw
        refine ⟨hchain, _, hl, Or.inr ⟨_, _, rfl, ?_, ?_, hdrawn⟩⟩
        · rw [hgame, hstate]
        · rw [resumed, if_neg hnb]
      | brk v1 =>
        rw [hbd] at hchain hl hgame hstate hdrawn
        simp only [Step.vars] at hchain hl hgame hstate hdrawn
        have hab : v1.state = LOSE_STATE ∨ v1.state = WIN_STATE := by
          rw [hstate]
          exact hbrk.mp ⟨v1, hbd⟩
        refine ⟨hchain, _, hl, Or.inr ⟨_, _, rfl, ?_, ?_, hdrawn⟩⟩
        · rw [hgame, hstate]
        · rw [resumed, if_pos hab]
      | fault v1 => exact absurd hbd (hnf v1)
    · rw [body_fault u c rng v hb]
      exact hch
  · rintro v ⟨hch, e, hlast, hlink⟩
    refine ⟨hch, e, hlast, ?_⟩
    rcases hlink with ⟨x, rfl, hg, hd⟩ | ⟨s1, k1, rfl, hg, hs, hd⟩
    · exact Or.inl ⟨x, rfl, hg, rfl, hd⟩
    · exact Or.inr ⟨s1, k1, rfl, hg, hs, hd⟩
  · exact ⟨by simp, _, rfl, Or.inl ⟨SEED, rfl, rfl, rfl⟩⟩

/-- The order of the draws is part of `follows`. -/
theorem follows_switch_order (u : Bool) (rng : Nat → ℚ) (a b : Event)
    (h : follows u rng a b) : switch_order u rng a b := by
  cases a <;> cases b <;> simp only [follows, switch_order] at h ⊢
  · exact h
  · exact h
  · obtain ⟨hg, -, hs, -, hk, hn⟩ := h
    refine ⟨hk, hn, ?_⟩
    intro h0 h4
    refine ⟨hg, ?_⟩
    rw [hs, resumed, if_neg (by tauto)]

/-- The flags of the game-types 2 and 3. -/
theorem flags_switching (game : Int) (hg : game = 2 ∨ game = 3) :
    flags game = (0, decide (game = 2), decide (game = 3)) ∧
      (decide (game = 2) = true ∨ decide (game = 3) = true) := by
  rcases hg with rfl | rfl <;> simp [flags]

/-- In the game-types 2 and 3 the log of `main` is a chain of `follows`. -/
theorem main_follows (rng : Nat → ℚ) (fuel : Nat) (game numsteps : Int)
    (hg : game = 2 ∨ game = 3) :
    List.Chain' (follows (decide (game = 2)) rng) (main rng fuel 3 game numsteps).log := by
  by_cases hn : numsteps < 0
  · rw [main_invalid rng fuel game numsteps (Or.inr (Or.inr hn))]
    simp [Outcome.log]
  · obtain ⟨hf, hsw⟩ := flags_switching game hg
    rw [(main_valid_log rng fuel game numsteps (by omega) (by omega) (not_lt.mp hn)).1, hf]
    exact trials_follows _ _ hsw rng fuel numsteps.toNat 0

/-- C10, counterexample: in game-type 3 with every draw 35/36 and two trials,
draw 0, the first draw of the run, is taken by a transition and not by a
switch, every switch comes after the transition it belongs to, and the first
transition of the second trial (draw 4, from state 2) samples game 1. -/
theorem switching_order_counterexample :
    (main (fun _ => 35 / 36) 10 3 3 2).log =
      [Event.seed 2358, Event.transition 0 2 0 3, Event.selection 3 1 1,
        Event.transition 1 3 2 4, Event.selection 4 3 1, Event.transition 1 2 4 3,
        Event.selection 3 5 1, Event.transition 1 3 6 4, Event.selection 4 7 1] := by
  decide!

/-- C10, amended: in the game-types 2 and 3 every pass takes the transition
draw first and the switch draw immediately after it; the switch is made from
the state the transition has just reached; after a switch made from a
transient state the next transition samples the game assigned by that switch,
from that state; the first draw of a run is the transition draw of a
transition of game 0 from state 2. -/
theorem switching_order (rng : Nat → ℚ) (fuel : Nat) (game numsteps : Int)
    (hg : game = 2 ∨ game = 3) :
    List.Chain' (switch_order (decide (game = 2)) rng)
      (main rng fuel 3 game numsteps).log :=
  (main_follows rng fuel game numsteps hg).imp
    (fun {a b} h => follows_switch_order _ rng a b h)

/-- C10, amended, on the run of two trials in game-type 3 with every draw
35/36. -/
theorem switching_order_witness :
    List.Chain' (switch_order (decide ((3 : Int) = 2)) (fun _ => 35 / 36))
      (main (fun _ => 35 / 36) 10 3 3 2).log :=
  switching_order (fun _ => 35 / 36) 10 3 2 (Or.inr rfl)

/-! ## Trials and the draws they consume -/

/-- The switch made from equal states with equal draws assigns equal games. -/
theorem switch_same (u c : Bool) (rng rng1 : Nat → ℚ) (a b : Vars) (hg : a.game = b.game)
    (hs : a.state = b.state) (hd : rng a.drawn = rng1 b.drawn) :
    (switch_mtm u c rng a).game = (switch_mtm u c rng1 b).game ∧
      a.drawn ≤ (switch_mtm u c rng a).drawn ∧
      (switch_mtm u c rng a).drawn + b.drawn = (switch_mtm u c rng1 b).drawn + a.drawn := by
  unfold switch_mtm
  split_ifs <;> simp [hg, hs, hd] <;> omega

/-- Passes from equal games and states on equal draws make the same progress. -/
theorem body_same (u c : Bool) (rng rng1 : Nat → ℚ) (a b : Vars) (hg : a.game = b.game)
    (hs : a.state = b.state) (hd : ∀ k, rng (a.drawn + k) = rng1 (b.drawn + k)) :
    ∃ a1 b1, same_progress a b a1 b1 ∧
      ((body u c rng a = Step.next a1 ∧ body u c rng1 b = Step.next b1) ∨
       (body u c rng a = Step.brk a1 ∧ body u c rng1 b = Step.brk b1) ∨
       (body u c rng a = Step.fault a1 ∧ body u c rng1 b = Step.fault b1)) := by
  obtain ⟨g, s, al, aw, ad, alog⟩ := a
  obtain ⟨bg, bs, bl, bw, bd, blog⟩ := b
  simp only at hg hs hd
  subst hg
  subst hs
  have hd0 : rng1 bd = rng ad := by simpa using (hd 0).symm
  by_cases hb : 0 ≤ g ∧ g < NUM_GAMES ∧ 0 ≤ s ∧ s < NUM_STATES
  · rw [body_eq u c rng _ hb, body_eq u c rng1 _ hb]
    simp only [hd0]
    obtain ⟨sg, sm, sd⟩ := switch_same u c rng rng1
      ⟨g, next_state g.toNat s.toNat (rng ad), al, aw, ad + 1,
        alog ++ [Event.transition g s ad (next_state g.toNat s.toNat (rng ad))]⟩
      ⟨g, next_state g.toNat s.toNat (rng ad), bl, bw, bd + 1,
        blog ++ [Event.transition g s bd (next_state g.toNat s.toNat (rng ad))]⟩
      rfl rfl (hd 1)
    simp only at sd sm
    split_ifs with h0 h4
    · refine ⟨_, _, ?_, Or.inr (Or.inl ⟨rfl, rfl⟩)⟩
      refine ⟨sg, ?_, ?_, ?_, ?_⟩
      · simp only [(switch_mtm_frame u c _ _).1]
      · simp only; omega
      · simp only; omega
      · simp only [(switch_mtm_frame u c _ _).2.2]; omega
    · refine ⟨_, _, ?_, Or.inr (Or.inl ⟨rfl, rfl⟩)⟩
      refine ⟨sg, ?_, ?_, ?_, ?_⟩
      · simp only [(switch_mtm_frame u c _ _).1]
      · simp only; omega
      · simp only [(switch_mtm_frame u c _ _).2.1]; omega
      · simp only; omega
    · refine ⟨_, _, ?_, Or.inl ⟨rfl, rfl⟩⟩
      refine ⟨sg, ?_, ?_, ?_, ?_⟩
      · simp only [(switch_mtm_frame u c _ _).1]
      · simp only; omega
      · simp only [(switch_mtm_frame u c _ _).2.1]; omega
      · simp only [(switch_mtm_frame u c _ _).2.2]; omega
  · rw [body_fault u c rng _ hb, body_fault u c rng1 _ hb]
    refine ⟨_, _, ?_, Or.inr (Or.inr ⟨rfl, rfl⟩)⟩
    refine ⟨rfl, rfl, ?_, ?_, ?_⟩ <;> simp only <;> omega


/-- Progress adds up. -/
theorem same_progress_trans (v w a b x y : Vars) (h1 : same_progress v w a b)
    (h2 : same_progress a b x y) : same_progress v w x y := by
  obtain ⟨-, -, ⟨m1, d1⟩, l1, w1⟩ := h1
  obtain ⟨g2, s2, ⟨m2, d2⟩, l2, w2⟩ := h2
  exact ⟨g2, s2, ⟨by omega, by omega⟩, by omega, by omega⟩

/-- Walks from equal games and states on equal draws make the same progress. -/
theorem walk_same (u c : Bool) (rng rng1 : Nat → ℚ) (fuel : Nat) (a b : Vars)
    (hg : a.game = b.game) (hs : a.state = b.state)
    (hd : ∀ k, rng (a.drawn + k) = rng1 (b.drawn + k)) :
    ∃ a1 b1, same_progress a b a1 b1 ∧
      ((walk u c rng fuel a = Res.done a1 ∧ walk u c rng1 fuel b = Res.done b1) ∨
       (walk u c rng fuel a = Res.more a1 ∧ walk u c rng1 fuel b = Res.more b1) ∨
       (walk u c rng fuel a = Res.fault a1 ∧ walk u c rng1 fuel b = Res.fault b1)) := by
  induction fuel generalizing a b with
  | zero =>
    exact ⟨a, b, ⟨hg, hs, ⟨le_rfl, by omega⟩, by omega, by omega⟩, Or.inr (Or.inl ⟨rfl, rfl⟩)⟩
  | succ n ih =>
    obtain ⟨a1, b1, hp, hb⟩ := body_same u c rng rng1 a b hg hs hd
    rw [walk, walk]
    rcases hb with ⟨ha, hb⟩ | ⟨ha, hb⟩ | ⟨ha, hb⟩
    · rw [ha, hb]
      have hd1 : ∀ k, rng (a1.drawn + k) = rng1 (b1.drawn + k) := by
        intro k
        obtain ⟨-, -, ⟨hm, hdr⟩, -, -⟩ := hp
        obtain ⟨j, hj⟩ : ∃ j, a1.drawn = a.drawn + j ∧ b1.drawn = b.drawn + j :=
          ⟨a1.drawn - a.drawn, by omega, by omega⟩
        rw [hj.1, hj.2, Nat.add_assoc, Nat.add_assoc]
        exact hd _
      obtain ⟨x, y, hxy, hr⟩ := ih a1 b1 hp.1 hp.2.1 hd1
      exact ⟨x, y, same_progress_trans a b a1 b1 x y hp hxy, hr⟩
    · rw [ha, hb]
      exact ⟨a1, b1, hp, Or.inl ⟨rfl, rfl⟩⟩
    · rw [ha, hb]
      exact ⟨a1, b1, hp, Or.inr (Or.inr ⟨rfl, rfl⟩)⟩

/-- Without a flag the walk keeps the game. -/
theorem walk_fixed_game (rng : Nat → ℚ) (fuel : Nat) (v : Vars) :
    (walk false false rng fuel v).vars.game = v.game := by
  refine walk_invariant (fun w => w.game = v.game) false false rng ?_ fuel v rfl
  intro w hw
  by_cases hb : 0 ≤ w.game ∧ w.game < NUM_GAMES ∧ 0 ≤ w.state ∧ w.state < NUM_STATES
  · rw [body_eq false false rng w hb]
    simp only [switch_mtm_off]
    split_ifs <;> exact hw
  · rw [body_fault false false rng w hb]
    exact hw

/-- C11, counterexample: in game-type 3 the same draws 30/36, 0, 35/36, 0, 0, ...
give a lost trial when they are consumed by the first trial of a run, and a
won trial when they are consumed by a second trial that follows a won one:
the second trial starts with game 1, left by the last switch of the first. -/
theorem trial_reset_counterexample :
    main (fun k => if k = 0 then 30 / 36 else if k = 2 then 35 / 36 else 0) 10 3 3 1 =
      Outcome.exit0
        { game := 0, state := 0, losses := 1, wins := 0, drawn := 10,
          log := [Event.seed 2358, Event.transition 0 2 0 2, Event.selection 2 1 0,
            Event.transition 0 2 2 3, Event.selection 3 3 0, Event.transition 0 3 4 2,
            Event.selection 2 5 0, Event.transition 0 2 6 1, Event.selection 1 7 0,
            Event.transition 0 1 8 0, Event.selection 0 9 0] } ∧
    main (fun k => if k < 4 then 35 / 36 else if k = 4 then 30 / 36
        else if k = 6 then 35 / 36 else 0) 10 3 3 2 =
      Outcome.exit0
        { game := 0, state := 4, losses := 0, wins := 2, drawn := 8,
          log := [Event.seed 2358, Event.transition 0 2 0 3, Event.selection 3 1 1,
            Event.transition 1 3 2 4, Event.selection 4 3 1, Event.transition 1 2 4 3,
            Event.selection 3 5 0, Event.transition 0 3 6 4, Event.selection 4 7 0] } := by
  constructor <;> decide!

/-- C11, amended: the state is reset at the start of each trial, the game is
not.  Two trials that start with the same value of `game` and are fed the same
draws make the same progress: they end alike (both returned, both still
running, or both faulted), in the same state and with the same game, having
taken as many draws and added as much to `losses` and to `wins`.  In the fixed
modes the game never changes, so there the draws alone decide. -/
theorem trial_determined (u c : Bool) (rng rng1 : Nat → ℚ) (fuel : Nat) (v w : Vars)
    (hg : v.game = w.game) (hd : ∀ k, rng (v.drawn + k) = rng1 (w.drawn + k)) :
    (∃ a b, same_progress v w a b ∧
      ((trial u c rng fuel v = Res.done a ∧ trial u c rng1 fuel w = Res.done b) ∨
       (trial u c rng fuel v = Res.more a ∧ trial u c rng1 fuel w = Res.more b) ∨
       (trial u c rng fuel v = Res.fault a ∧ trial u c rng1 fuel w = Res.fault b))) ∧
    (trial false false rng fuel v).vars.game = v.game := by
  refine ⟨?_, walk_fixed_game rng fuel { v with state := INITIAL_STATE }⟩
  exact walk_same u c rng rng1 fuel { v with state := INITIAL_STATE }
    { w with state := INITIAL_STATE } hg rfl hd

/-- C11, amended, on two trials in game-type 3 that both start with game 0 and
are fed the draws 0, 0, ...: one at the start of a run, one after a trial that
took four draws. -/
theorem trial_determined_witness :
    ∃ a b, same_progress ⟨0, 0, 0, 0, 0, []⟩ ⟨0, 4, 0, 1, 4, []⟩ a b ∧
      ((trial false true (fun _ => 0) 5 ⟨0, 0, 0, 0, 0, []⟩ = Res.done a ∧
          trial false true (fun _ => 0) 5 ⟨0, 4, 0, 1, 4, []⟩ = Res.done b) ∨
       (trial false true (fun _ => 0) 5 ⟨0, 0, 0, 0, 0, []⟩ = Res.more a ∧
          trial false true (fun _ => 0) 5 ⟨0, 4, 0, 1, 4, []⟩ = Res.more b) ∨
       (trial false true (fun _ => 0) 5 ⟨0, 0, 0, 0, 0, []⟩ = Res.fault a ∧
          trial false true (fun _ => 0) 5 ⟨0, 4, 0, 1, 4, []⟩ = Res.fault b)) :=
  (trial_determined false true (fun _ => 0) (fun _ => 0) 5 ⟨0, 0, 0, 0, 0, []⟩
    ⟨0, 4, 0, 1, 4, []⟩ rfl (fun _ => rfl)).1

/-- The switch reads no draw beyond those it counts. -/
theorem switch_congr (u c : Bool) (rng rng1 : Nat → ℚ) (v : Vars)
    (h : ∀ k, k < (switch_mtm u c rng v).drawn → rng k = rng1 k) :
    switch_mtm u c rng1 v = switch_mtm u c rng v := by
  unfold switch_mtm at h ⊢
  split_ifs at h ⊢ with hu hc
  · rw [h v.drawn (by simp)]
  · rw [h v.drawn (by simp)]
  · rfl

/-- The switch takes no draw back. -/
theorem switch_mono (u c : Bool) (rng : Nat → ℚ) (v : Vars) :
    v.drawn ≤ (switch_mtm u c rng v).drawn := by
  unfold switch_mtm
  split_ifs <;> simp

/-- The number of draws after a pass. -/
theorem body_drawn (u c : Bool) (rng : Nat → ℚ) (v : Vars) :
    (body u c rng v).vars.drawn =
      if 0 ≤ v.game ∧ v.game < NUM_GAMES ∧ 0 ≤ v.state ∧ v.state < NUM_STATES then
        (switch_mtm u c rng
          { v with
            state := next_state v.game.toNat v.state.toNat (rng v.drawn)
            drawn := v.drawn + 1
            log := v.log ++ [Event.transition v.game v.state v.drawn
              (next_state v.game.toNat v.state.toNat (rng v.drawn))] }).drawn
      else v.drawn + 1 := by
  by_cases hb : 0 ≤ v.game ∧ v.game < NUM_GAMES ∧ 0 ≤ v.state ∧ v.state < NUM_STATES
  · rw [body_eq u c rng v hb, if_pos hb]
    split_ifs <;> rfl
  · rw [body_fault u c rng v hb, if_neg hb]
    rfl

/-- A pass takes at least one draw. -/
theorem body_mono (u c : Bool) (rng : Nat → ℚ) (v : Vars) :
    v.drawn + 1 ≤ (body u c rng v).vars.drawn := by
  rw [body_drawn]
  split_ifs
  · exact switch_mono u c rng
      { v with
        state := next_state v.game.toNat v.state.toNat (rng v.drawn)
        drawn := v.drawn + 1
        log := v.log ++ [Event.transition v.game v.state v.drawn
          (next_state v.game.toNat v.state.toNat (rng v.drawn))] }
  · exact le_rfl

/-- A pass reads no draw beyond those it counts. -/
theorem body_congr (u c : Bool) (rng rng1 : Nat → ℚ) (v : Vars)
    (h : ∀ k, k < (body u c rng v).vars.drawn → rng k = rng1 k) :
    body u c rng1 v = body u c rng v := by
  have h0 : rng1 v.drawn = rng v.drawn := (h v.drawn (body_mono u c rng v)).symm
  by_cases hb : 0 ≤ v.game ∧ v.game < NUM_GAMES ∧ 0 ≤ v.state ∧ v.state < NUM_STATES
  · rw [body_drawn, if_pos hb] at h
    rw [body_eq u c rng1 v hb, body_eq u c rng v hb, h0, switch_congr u c rng rng1 _ h]
  · rw [body_fault u c rng1 v hb, body_fault u c rng v hb]

/-- The walk takes no draw back. -/
theorem walk_mono (u c : Bool) (rng : Nat → ℚ) (fuel : Nat) (v : Vars) :
    v.drawn ≤ (walk u c rng fuel v).vars.drawn :=
  walk_invariant (fun w => v.drawn ≤ w.drawn) u c rng
    (fun w hw => le_trans hw (le_trans (Nat.le_succ _) (body_mono u c rng w))) fuel v le_rfl

/-- The main loop takes no draw back. -/
theorem trials_mono (u c : Bool) (rng : Nat → ℚ) (fuel n : Nat) (v : Vars) :
    v.drawn ≤ (trials u c rng fuel n v).vars.drawn :=
  trials_invariant (fun w => v.drawn ≤ w.drawn) u c rng
    (fun w hw => le_trans hw (le_trans (Nat.le_succ _) (body_mono u c rng w)))
    (fun _ hw => hw) fuel n v le_rfl

/-- The walk reads no draw beyond those it counts. -/
theorem walk_congr (u c : Bool) (rng rng1 : Nat → ℚ) (fuel : Nat) (v : Vars)
    (h : ∀ k, k < (walk u c rng fuel v).vars.drawn → rng k = rng1 k) :
    walk u c rng1 fuel v = walk u c rng fuel v := by
  induction fuel generalizing v with
  | zero => rfl
  | succ n ih =>
    rw [walk] at h
    rw [walk, walk]
    cases hb : body u c rng v with
    | next v1 =>
      rw [hb] at h
      simp only at h
      have hb1 : body u c rng1 v = Step.next v1 := by
        rw [← hb]
        apply body_congr
        intro k hk
        rw [hb] at hk
        exact h k (lt_of_lt_of_le hk (walk_mono u c rng n v1))
      rw [hb1]
      exact ih v1 h
    | brk v1 =>
      rw [hb] at h
      have hb1 : body u c rng1 v = Step.brk v1 := by
        rw [← hb]
        apply body_congr
        intro k hk
        rw [hb] at hk
        exact h k hk
      rw [hb1]
    | fault v1 =>
      rw [hb] at h
      have hb1 : body u c rng1 v = Step.fault v1 := by
        rw [← hb]
        apply body_congr
        intro k hk
        rw [hb] at hk
        exact h k hk
      rw [hb1]

/-- The main loop reads no draw beyond those it counts. -/
theorem trials_congr (u c : Bool) (rng rng1 : Nat → ℚ) (fuel n : Nat) (v : Vars)
    (h : ∀ k, k < (trials u c rng fuel n v).vars.drawn → rng k = rng1 k) :
    trials u c rng1 fuel n v = trials u c rng fuel n v := by
  induction n generalizing v with
  | zero => rfl
  | succ n ih =>
    rw [trials, trial] at h
    rw [trials, trials, trial, trial]
    cases hw : walk u c rng fuel { v with state := INITIAL_STATE } with
    | done v1 =>
      rw [hw] at h
      simp only at h
      have hw1 : walk u c rng1 fuel { v with state := INITIAL_STATE } = Res.done v1 := by
        rw [← hw]
        apply walk_congr
        intro k hk
        rw [hw] at hk
        exact h k (lt_of_lt_of_le hk (trials_mono u c rng fuel n v1))
      rw [hw1]
      exact ih v1 h
    | more v1 =>
      rw [hw] at h
      have hw1 : walk u c rng1 fuel { v with state := INITIAL_STATE } = Res.more v1 := by
        rw [← hw]
        apply walk_congr
        intro k hk
        rw [hw] at hk
        exact h k hk
      rw [hw1]
    | fault v1 =>
      rw [hw] at h
      have hw1 : walk u c rng1 fuel { v with state := INITIAL_STATE } = Res.fault v1 := by
        rw [← hw]
        apply walk_congr
        intro k hk
        rw [hw] at hk
        exact h k hk
      rw [hw1]

/-- C12: a finished run is a function of the arguments and of the draws it
has consumed: a second run fed a draw sequence that agrees with the first on
the draws consumed finishes with the same variables, and so with identical
`wins` and `losses`. -/
theorem main_deterministic (rng rng1 : Nat → ℚ) (fuel : Nat) (argc game numsteps : Int)
    (v : Vars) (h : main rng fuel argc game numsteps = Outcome.exit0 v)
    (hd : ∀ k, k < v.drawn → rng k = rng1 k) :
    main rng1 fuel argc game numsteps = Outcome.exit0 v := by
  unfold main at h ⊢
  simp only at h ⊢
  split_ifs at h ⊢ with h1 h2 h3
  cases ht : trials (flags game).2.1 (flags game).2.2 rng fuel numsteps.toNat
      { game := (flags game).1, state := 0, losses := 0, wins := 0, drawn := 0,
        log := [] ++ [Event.seed SEED] } with
  | done v1 =>
    rw [ht] at h
    simp only [Outcome.exit0.injEq] at h
    subst h
    rw [trials_congr _ _ rng rng1 fuel _ _ (by rw [ht]; exact hd), ht]
  | more v1 =>
    rw [ht] at h
    cases h
  | fault v1 =>
    rw [ht] at h
    cases h

/-- C12 on the run of two trials in game-type 0 whose first two draws are
35/36 and whose next two are 0: whatever the draws after the fourth, the run
ends with one win and one loss. -/
theorem main_deterministic_witness :
    main (fun k => if k < 2 then 35 / 36 else if k < 4 then 0 else 1 / 2) 10 3 0 2 =
      Outcome.exit0
        { game := 0, state := 0, losses := 1, wins := 1, drawn := 4,
          log := [Event.seed 2358, Event.transition 0 2 0 3, Event.transition 0 3 1 4,
            Event.transition 0 2 2 1, Event.transition 0 1 3 0] } :=
  main_deterministic (fun k => if k < 2 then 35 / 36 else 0)
    (fun k => if k < 2 then 35 / 36 else if k < 4 then 0 else 1 / 2) 10 3 0 2
    { game := 0, state := 0, losses := 1, wins := 1, drawn := 4,
      log := [Event.seed 2358, Event.transition 0 2 0 3, Event.transition 0 3 1 4,
        Event.transition 0 2 2 1, Event.transition 0 1 3 0] } (by decide!)
    (fun k hk => by
      have hk4 : k < 4 := hk
      simp only [hk4, if_true])

/-! ## Accounting of the draws -/

/-- A pass that does not fault adds one transition, and with a flag set one
switch and two draws, without a flag no switch and one draw. -/
theorem body_accounting (u c : Bool) (rng : Nat → ℚ) (v : Vars)
    (hb : 0 ≤ v.game ∧ v.game < NUM_GAMES ∧ 0 ≤ v.state ∧ v.state < NUM_STATES) :
    transitions (body u c rng v).vars.log = transitions v.log + 1 ∧
    selections (body u c rng v).vars.log =
      selections v.log + (if u = true ∨ c = true then 1 else 0) ∧
    (body u c rng v).vars.drawn =
      v.drawn + 1 + (if u = true ∨ c = true then 1 else 0) := by
  by_cases h : u = true ∨ c = true
  · obtain ⟨hlog, -, -, hdrawn, -, -⟩ := body_switching u c h rng v hb
    rw [hlog, hdrawn, if_pos h]
    simp [transitions, selections, List.countP_append, List.countP_cons,
      Event.is_transition, Event.is_selection]
  · have hu : u = false := by cases u <;> simp_all
    have hc : c = false := by cases c <;> simp_all
    subst hu
    subst hc
    rw [body_eq false false rng v hb, if_neg h]
    simp only [switch_mtm_off]
    split_ifs <;>
      simp [Step.vars, transitions, selections, List.countP_append, List.countP_cons,
        Event.is_transition, Event.is_selection]

/-- C13: in a finished run of game-type 0 or 1 no switch took a draw and the
number of draws is the number `T` of transitions; in a finished run of
game-type 2 or 3 every transition was accompanied by one switch and the number
of draws is `2 * T`. -/
theorem draw_accounting (rng : Nat → ℚ) (fuel : Nat) (argc game numsteps : Int) (v : Vars)
    (h : main rng fuel argc game numsteps = Outcome.exit0 v) :
    ((game = 0 ∨ game = 1) → selections v.log = 0 ∧ v.drawn = transitions v.log) ∧
    ((game = 2 ∨ game = 3) →
      selections v.log = transitions v.log ∧ v.drawn = 2 * transitions v.log) := by
  unfold main at h
  simp only at h
  split_ifs at h with h1 h2 h3
  have key := trials_phases
    (fun w => selections w.log =
        (if (flags game).2.1 = true ∨ (flags game).2.2 = true then 1 else 0)
          * transitions w.log ∧
      w.drawn = (1 + if (flags game).2.1 = true ∨ (flags game).2.2 = true then 1 else 0)
        * transitions w.log)
    (fun w => selections w.log =
        (if (flags game).2.1 = true ∨ (flags game).2.2 = true then 1 else 0)
          * transitions w.log ∧
      w.drawn = (1 + if (flags game).2.1 = true ∨ (flags game).2.2 = true then 1 else 0)
        * transitions w.log)
    (fun _ => True) (flags game).2.1 (flags game).2.2 rng ?_ (fun w hw => hw)
    fuel numsteps.toNat
    { game := (flags game).1, state := 0, losses := 0, wins := 0, drawn := 0,
      log := [] ++ [Event.seed SEED] }
    (by simp [transitions, selections, Event.is_transition, Event.is_selection])
  · cases ht : trials (flags game).2.1 (flags game).2.2 rng fuel numsteps.toNat
        { game := (flags game).1, state := 0, losses := 0, wins := 0, drawn := 0,
          log := [] ++ [Event.seed SEED] } with
    | done v1 =>
      rw [ht] at h key
      simp only [Outcome.exit0.injEq] at h
      subst h
      simp only at key
      constructor
      · intro hg
        have hf : flags game = (game, false, false) := by
          rcases hg with rfl | rfl <;> simp [flags]
        rw [hf] at key
        simpa using key
      · intro hg
        have hf : flags game = (0, decide (game = 2), decide (game = 3)) := by
          rcases hg with rfl | rfl <;> simp [flags]
        rw [hf] at key
        rcases hg with rfl | rfl <;> simpa using key
    | more v1 =>
      rw [ht] at h
      cases h
    | fault v1 =>
      rw [ht] at h
      cases h
  · intro w hw
    by_cases hb : 0 ≤ w.game ∧ w.game < NUM_GAMES ∧ 0 ≤ w.state ∧ w.state < NUM_STATES
    · obtain ⟨ht, hs, hd⟩ := body_accounting (flags game).2.1 (flags game).2.2 rng w hb
      have hgoal : selections (body (flags game).2.1 (flags game).2.2 rng w).vars.log =
          (if (flags game).2.1 = true ∨ (flags game).2.2 = true then 1 else 0)
            * transitions (body (flags game).2.1 (flags game).2.2 rng w).vars.log ∧
          (body (flags game).2.1 (flags game).2.2 rng w).vars.drawn =
            (1 + if (flags game).2.1 = true ∨ (flags game).2.2 = true then 1 else 0)
              * transitions (body (flags game).2.1 (flags game).2.2 rng w).vars.log := by
        rw [ht, hs, hd, hw.1, hw.2]
        split_ifs <;> constructor <;> ring
      cases hbd : body (flags game).2.1 (flags game).2.2 rng w with
      | next v1 =>
        rw [hbd] at hgoal
        exact hgoal
      | brk v1 =>
        rw [hbd] at hgoal
        exact hgoal
      | fault v1 => trivial
    · rw [body_fault _ _ rng w hb]
      trivial

/-- C13 on the run of two trials in game-type 3 with every draw 35/36: four
transitions, four switches, eight draws. -/
theorem draw_accounting_witness :
    selections [Event.seed 2358, Event.transition 0 2 0 3, Event.selection 3 1 1,
        Event.transition 1 3 2 4, Event.selection 4 3 1, Event.transition 1 2 4 3,
        Event.selection 3 5 1, Event.transition 1 3 6 4, Event.selection 4 7 1] =
      transitions [Event.seed 2358, Event.transition 0 2 0 3, Event.selection 3 1 1,
        Event.transition 1 3 2 4, Event.selection 4 3 1, Event.transition 1 2 4 3,
        Event.selection 3 5 1, Event.transition 1 3 6 4, Event.selection 4 7 1] ∧
    8 = 2 * transitions [Event.seed 2358, Event.transition 0 2 0 3, Event.selection 3 1 1,
        Event.transition 1 3 2 4, Event.selection 4 3 1, Event.transition 1 2 4 3,
        Event.selection 3 5 1, Event.transition 1 3 6 4, Event.selection 4 7 1] :=
  (draw_accounting (fun _ => 35 / 36) 10 3 3 2
    { game := 1, state := 4, losses := 0, wins := 2, drawn := 8,
      log := [Event.seed 2358, Event.transition 0 2 0 3, Event.selection 3 1 1,
        Event.transition 1 3 2 4, Event.selection 4 3 1, Event.transition 1 2 4 3,
        Event.selection 3 5 1, Event.transition 1 3 6 4, Event.selection 4 7 1] }
    (by decide!)).2 (Or.inr rfl)

/-! ## The rows that are sampled -/

/-- On [0,1) the function `rint` is 1 exactly above 1/2. -/
theorem rint_unit_iff (x : ℚ) (h0 : 0 ≤ x) (h1 : x < 1) : rint x = 1 ↔ 1 / 2 < x := by
  constructor
  · intro h
    by_contra hx
    rw [rint_of_le_half x h0 (not_lt.mp hx)] at h
    exact absurd h (by decide)
  · intro h
    exact rint_of_gt_half x h h1

/-- The game assigned by the switch with the flag `correlated` alone. -/
theorem switch_correlated_game (rng : Nat → ℚ) (v : Vars) :
    (switch_mtm false true rng v).game = rint (phi v.state * rng v.drawn) := by
  simp [switch_mtm]

/-- The game assigned by the switch with the flag `uniform`. -/
theorem switch_uniform_game (c : Bool) (rng : Nat → ℚ) (v : Vars) :
    (switch_mtm true c rng v).game = rint (rng v.drawn) := by
  simp [switch_mtm]

/-- The order parameter is a quarter of the state. -/
theorem phi_eq (s : Int) : phi s = (s : ℚ) / 4 := by
  simp [phi, NUM_STATES]

/-- For a state in 0..4 and a draw in [0,1) the correlated switch assigns game
1 exactly when `state * draw > 2`. -/
theorem correlated_iff (s : Int) (u : ℚ) (h0 : 0 ≤ s) (h4 : s ≤ 4) (hu0 : 0 ≤ u)
    (hu1 : u < 1) : rint (phi s * u) = 1 ↔ 2 < (s : ℚ) * u := by
  have h0q : (0 : ℚ) ≤ (s : ℚ) := by exact_mod_cast h0
  have h4q : (s : ℚ) ≤ 4 := by exact_mod_cast h4
  have hx0 : 0 ≤ phi s * u := mul_nonneg (phi_unit s h0 h4).1 hu0
  have hx1 : phi s * u < 1 := by
    calc phi s * u ≤ 1 * u := mul_le_mul_of_nonneg_right (phi_unit s h0 h4).2 hu0
      _ = u := one_mul _
      _ < 1 := hu1
  rw [rint_unit_iff _ hx0 hx1, phi_eq]
  constructor <;> intro h <;> linarith

/-- C15: the correlated switch is monotone in the state and dominated by the
uniform switch: for a draw in [0,1) and states `s ≤ s1` in 0..4, if the
correlated switch made at `s` assigns game 1, so does the one made at `s1`
with the same draw, and so does the uniform switch with the same draw. -/
theorem correlated_monotone (c : Bool) (rng : Nat → ℚ) (v w : Vars) (hd : v.drawn = w.drawn)
    (hr0 : 0 ≤ rng v.drawn) (hr1 : rng v.drawn < 1) (h0 : 0 ≤ v.state)
    (hle : v.state ≤ w.state) (h4 : w.state ≤ 4)
    (hB : (switch_mtm false true rng v).game = 1) :
    (switch_mtm false true rng w).game = 1 ∧ (switch_mtm true c rng v).game = 1 := by
  rw [switch_correlated_game, correlated_iff _ _ h0 (le_trans hle h4) hr0 hr1] at hB
  have hvq : (0 : ℚ) ≤ (v.state : ℚ) := by exact_mod_cast h0
  have hle_q : (v.state : ℚ) ≤ (w.state : ℚ) := by exact_mod_cast hle
  have h4q : (w.state : ℚ) ≤ 4 := by exact_mod_cast h4
  constructor
  · rw [switch_correlated_game, ← hd, correlated_iff _ _ (le_trans h0 hle) h4 hr0 hr1]
    calc (2 : ℚ) < (v.state : ℚ) * rng v.drawn := hB
      _ ≤ (w.state : ℚ) * rng v.drawn := mul_le_mul_of_nonneg_right hle_q hr0
  · rw [switch_uniform_game, rint_unit_iff _ hr0 hr1]
    have : (v.state : ℚ) * rng v.drawn ≤ 4 * rng v.drawn :=
      mul_le_mul_of_nonneg_right (le_trans hle_q h4q) hr0
    linarith

/-- C15 at the draw 9/10: the correlated switch assigns game 1 at state 3, so
it does at state 4, and so does the uniform switch. -/
theorem correlated_monotone_witness :
    (switch_mtm false true (fun _ => 9 / 10) ⟨0, 4, 0, 0, 1, []⟩).game = 1 ∧
      (switch_mtm true false (fun _ => 9 / 10) ⟨0, 3, 0, 0, 1, []⟩).game = 1 :=
  correlated_monotone false (fun _ => 9 / 10) ⟨0, 3, 0, 0, 1, []⟩ ⟨0, 4, 0, 0, 1, []⟩ rfl
    (by norm_num) (by norm_num) (by decide) (by decide) (by decide) (by decide!)

/-- C18: for a game in 0..1, a transient state `s` in 1..3 and a draw in
[0,1), the sampling loop sets `nextstate` to `s - 1`, `s` or `s + 1`: it never
leaves it at -1, and the result is an index inside `0 .. NUM_STATES - 1`. -/
theorem next_state_valid (g s : Nat) (r : ℚ) (hg : g < NUM_GAMES) (hs1 : 1 ≤ s)
    (hs3 : s ≤ 3) (hr0 : 0 ≤ r) (hr1 : r < 1) :
    |next_state g s r - s| ≤ 1 ∧ next_state g s r ≠ -1 ∧ 0 ≤ next_state g s r ∧
      next_state g s r < NUM_STATES := by
  have h := next_state_near g s r hg hs1 hs3 hr0 hr1
  simp only [NUM_STATES]
  rw [abs_le]
  omega

/-- C18 at game 1, state 3 and the draw 35/36: the next state is 4. -/
theorem next_state_valid_witness :
    |next_state 1 3 (35 / 36) - (3 : Nat)| ≤ 1 ∧ next_state 1 3 (35 / 36) ≠ -1 ∧
      0 ≤ next_state 1 3 (35 / 36) ∧ next_state 1 3 (35 / 36) < NUM_STATES :=
  next_state_valid 1 3 (35 / 36) (by decide) (by decide) (by decide) (by norm_num)
    (by norm_num)

/-! ## Frequencies of the correlated switch -/

/-- C16, counterexample: at state 3 no draw in [0, 13/20] makes the correlated
switch assign game 1, so the draws that do lie in (13/20, 1), an interval of
length 7/20, less than 3/8. -/
theorem correlated_frequency_counterexample :
    (∀ u : ℚ, 0 ≤ u → u ≤ 13 / 20 →
      (switch_mtm false true (fun _ => u) ⟨0, 3, 0, 0, 0, []⟩).game = 0) ∧
    (1 : ℚ) - 13 / 20 < 3 / 8 := by
  refine ⟨?_, by norm_num⟩
  intro u h0 h1
  rw [switch_correlated_game]
  apply rint_of_le_half
  · exact mul_nonneg (phi_unit 3 (by decide) (by decide)).1 h0
  · show phi 3 * u ≤ 1 / 2
    rw [show phi 3 = 3 / 4 by simp [phi, NUM_STATES]]
    linarith

/-- C16, amended: at state 3 the draws in [0,1) at which the correlated switch
assigns game 1 are those of the interval (2/3, 1), of length 1/3, and those at
which the uniform switch assigns game 1 are those of the interval (1/2, 1), of
length 1/2. -/
theorem correlated_frequency (v : Vars) (hs : v.state = 3) :
    {u : ℚ | 0 ≤ u ∧ u < 1 ∧ (switch_mtm false true (fun _ => u) v).game = 1} =
      Set.Ioo (2 / 3) 1 ∧
    {u : ℚ | 0 ≤ u ∧ u < 1 ∧ (switch_mtm true false (fun _ => u) v).game = 1} =
      Set.Ioo (1 / 2) 1 ∧
    MeasureTheory.volume (Set.Ioo (((2 / 3 : ℚ) : ℝ)) ((1 : ℚ) : ℝ)) = ENNReal.ofReal (1 / 3) ∧
    MeasureTheory.volume (Set.Ioo (((1 / 2 : ℚ) : ℝ)) ((1 : ℚ) : ℝ)) = ENNReal.ofReal (1 / 2) := by
  refine ⟨?_, ?_, ?_, ?_⟩
  · ext u
    simp only [Set.mem_setOf_eq, Set.mem_Ioo, switch_correlated_game, hs]
    constructor
    · rintro ⟨h0, h1, h⟩
      rw [correlated_iff 3 u (by decide) (by decide) h0 h1] at h
      push_cast at h
      exact ⟨by linarith, h1⟩
    · rintro ⟨h, h1⟩
      have h0 : 0 ≤ u := by linarith
      refine ⟨h0, h1, ?_⟩
      rw [correlated_iff 3 u (by decide) (by decide) h0 h1]
      push_cast
      linarith
  · ext u
    simp only [Set.mem_setOf_eq, Set.mem_Ioo, switch_uniform_game]
    constructor
    · rintro ⟨h0, h1, h⟩
      rw [rint_unit_iff u h0 h1] at h
      exact ⟨h, h1⟩
    · rintro ⟨h, h1⟩
      have h0 : 0 ≤ u := by linarith
      exact ⟨h0, h1, (rint_unit_iff u h0 h1).mpr h⟩
  · rw [Real.volume_Ioo]
    norm_num
  · rw [Real.volume_Ioo]
    norm_num

/-- C16, amended, at the variables of a walk in state 3. -/
theorem correlated_frequency_witness :
    {u : ℚ | 0 ≤ u ∧ u < 1 ∧
        (switch_mtm false true (fun _ => u) ⟨0, 3, 0, 0, 0, []⟩).game = 1} =
      Set.Ioo (2 / 3) 1 :=
  (correlated_frequency ⟨0, 3, 0, 0, 0, []⟩ rfl).1

/-- In game-type 3 with draws in [0,1), what `follows` allows, `governs`
allows. -/
theorem follows_governs (rng : Nat → ℚ) (hr : ∀ k, 0 ≤ rng k ∧ rng k < 1) (a b : Event)
    (h : follows false rng a b) : governs a b := by
  cases a <;> cases b <;> simp only [follows, governs] at h ⊢
  · exact h.1
  · rename_i s1 k1 g1 g s k n
    obtain ⟨hg, hg1, hs, ⟨-, -, hs0, hs5⟩, -, -⟩ := h
    intro hone
    have hb : 0 ≤ s1 ∧ s1 ≤ 4 := by
      simp only [resumed, LOSE_STATE, WIN_STATE, INITIAL_STATE, NUM_STATES] at hs hs5
      split_ifs at hs with hab
      · omega
      · omega
    rw [hg, hg1] at hone
    simp only [switched, Bool.false_eq_true, if_false] at hone
    rw [correlated_iff s1 (rng k1) hb.1 hb.2 (hr _).1 (hr _).2] at hone
    have hs3 : 3 ≤ s1 := by
      by_contra hlt
      have h2 : s1 ≤ 2 := by omega
      have h2q : (s1 : ℚ) ≤ 2 := by exact_mod_cast h2
      have := mul_le_mul_of_nonneg_right h2q (hr k1).1
      have hu := (hr k1).2
      linarith
    have h34 : s1 = 3 ∨ s1 = 4 := by omega
    rcases h34 with rfl | rfl
    · left
      simp [hs, resumed, LOSE_STATE, WIN_STATE]
    · right
      simp [hs, resumed, LOSE_STATE, WIN_STATE, INITIAL_STATE]


/-- C19, counterexample: in game-type 3 with every draw 35/36, draw 4 is the
transition draw of a transition that leaves state 2 and samples game 1: the
first transition of the second trial, after the switch made at state 4 at the
end of the won first trial. -/
theorem correlated_game1_counterexample :
    Event.transition 1 2 4 3 ∈ (main (fun _ => 35 / 36) 10 3 3 2).log := by
  decide!

/-- C19, amended: in game-type 3 with draws in [0,1), the switch made at a
state `s` in 0..4 with the draw `u` assigns game 1 exactly when `s * u > 2`,
so never at the states 0, 1 and 2; and game 1 governs only a transition that
leaves state 3, after the switch made at state 3, or the first transition of a
trial, from state 2, after the switch made at state 4 at the end of a won
trial. -/
theorem correlated_game1 (rng : Nat → ℚ) (fuel : Nat) (numsteps : Int)
    (hr : ∀ k, 0 ≤ rng k ∧ rng k < 1) :
    (∀ v : Vars, 0 ≤ v.state → v.state ≤ 4 →
      ((switch_mtm false true rng v).game = 1 ↔ 2 < (v.state : ℚ) * rng v.drawn)) ∧
    (∀ v : Vars, 0 ≤ v.state → v.state ≤ 2 → (switch_mtm false true rng v).game = 0) ∧
    List.Chain' governs (main rng fuel 3 3 numsteps).log := by
  have hiff : ∀ v : Vars, 0 ≤ v.state → v.state ≤ 4 →
      ((switch_mtm false true rng v).game = 1 ↔ 2 < (v.state : ℚ) * rng v.drawn) := by
    intro v h0 h4
    rw [switch_correlated_game]
    exact correlated_iff v.state _ h0 h4 (hr _).1 (hr _).2
  refine ⟨hiff, ?_, ?_⟩
  · intro v h0 h2
    rw [switch_correlated_game]
    have h2q : (v.state : ℚ) ≤ 2 := by exact_mod_cast h2
    have hm := mul_le_mul_of_nonneg_right h2q (hr v.drawn).1
    have hu := (hr v.drawn).2
    apply rint_of_le_half
    · exact mul_nonneg (phi_unit v.state h0 (by omega)).1 (hr _).1
    · rw [phi_eq]
      linarith
  · exact (main_follows rng fuel 3 numsteps (Or.inr rfl)).imp
      (fun {a b} h => follows_governs rng hr a b h)

/-- C19, amended, on the run of two trials with every draw 35/36. -/
theorem correlated_game1_witness :
    List.Chain' governs (main (fun _ => 35 / 36) 10 3 3 2).log :=
  (correlated_game1 (fun _ => 35 / 36) 10 2 (fun _ => by norm_num)).2.2

/-! ## The chain of correlated switching -/

end Astumian

